import Mathlib

/-!
Verification development for `matrix-blog-migrate` (`src/main.rs`), a one-shot
converter from an `.mdx` file with a YAML frontmatter header into a Zola-style
markdown file with TOML frontmatter.

The program is shallowly embedded: the ordered `IndexMap<String, toml::Value>`
becomes an association list, the fallible steps return `Except Err`, and the
observable side effects (stderr warnings, `create_dir_all`, the final file
write) are collected in an explicit trace.  External collaborators that the
program shells out to — the `git log` timestamp query result, the `date`
normalizer, the YAML parser (`serde_yaml`) and the TOML serializer
(`toml::to_string`) — are passed in as parameters / explicit input data.
-/

namespace MBM

/-- Dynamically-typed frontmatter value, modelling the fragment of
`toml::Value` the program can encounter: strings, arrays, nested tables,
plus integer and boolean scalars standing for the remaining scalar variants
(any non-string, non-array value takes the same code path in
`convert_taxonomy`). -/
inductive Value where
  | str (s : String)
  | int (n : Int)
  | boolean (b : Bool)
  | arr (xs : List Value)
  | table (kvs : List (String × Value))

/-- The ordered key-value document backing `IndexMap<String, toml::Value>`. -/
abbrev Doc := List (String × Value)

/-- The keys of a document, in order. -/
def keys (d : Doc) : List String := d.map Prod.fst

/-- First value stored under a key (`IndexMap` lookup; keys are unique in any
map produced by the program, so "first" is "the" entry). -/
def lookup : Doc → String → Option Value
  | [], _ => none
  | (k0, v) :: rest, k => if k0 = k then some v else lookup rest k

/-- `IndexMap::insert`: replace the value in place if the key is present,
otherwise append the new entry at the end. -/
def insertDoc : Doc → String → Value → Doc
  | [], k, v => [(k, v)]
  | (k0, v0) :: rest, k, v =>
    if k0 = k then (k, v) :: rest else (k0, v0) :: insertDoc rest k v

/-- `IndexMap::shift_remove`: remove the entry, preserving the order of all
other entries.  Returns the removed value (if any) and the new document. -/
def shiftRemove : Doc → String → Option Value × Doc
  | [], _ => (none, [])
  | (k0, v0) :: rest, k =>
    if k0 = k then (some v0, rest)
    else
      let r := shiftRemove rest k
      (r.1, (k0, v0) :: r.2)

/-- Helper for `swapRemove`: the removed slot is filled with the map's last
entry (which is the last entry of the remainder `rest`). -/
def swapFill (rest : Doc) : Doc :=
  match rest.getLast? with
  | none => []
  | some last => last :: rest.dropLast

/-- `IndexMap::remove` (= `swap_remove` in indexmap 1.x, which this program
uses in `convert_taxonomy`): remove the entry by swapping the map's last
entry into its slot and popping the end. -/
def swapRemove : Doc → String → Option Value × Doc
  | [], _ => (none, [])
  | (k0, v0) :: rest, k =>
    if k0 = k then (some v0, swapFill rest)
    else
      let r := swapRemove rest k
      (r.1, (k0, v0) :: r.2)

/-- Error outcomes of the program: failed `assert!`-style checks, `expect` /
`unwrap`-style panics, `bail!` errors, and the usage error for a wrong
argument count. -/
inductive Err where
  | assertFail (msg : String)
  | expectFail (msg : String)
  | bailed (msg : String)
  | usage
deriving Repr, DecidableEq

/-- `convert_taxonomy`: move `old_key` (if present) under the nested
`taxonomies` table as `new_key`, coercing a lone string into a one-element
array; a present value of any other shape than string/array is an error.
(The Rust error message also embeds the offending value's debug
representation; the embedding keeps just the key.) -/
def convert_taxonomy (fm : Doc) (oldKey newKey : String) : Except Err Doc :=
  match swapRemove fm oldKey with
  | (none, _) => .ok fm
  | (some value, fm1) =>
    let fm2 := if (lookup fm1 "taxonomies").isSome then fm1
               else insertDoc fm1 "taxonomies" (.table [])
    match lookup fm2 "taxonomies" with
    | some (.table tbl) =>
      match value with
      | .str s =>
        .ok (insertDoc fm2 "taxonomies" (.table (insertDoc tbl newKey (.arr [.str s]))))
      | .arr xs =>
        .ok (insertDoc fm2 "taxonomies" (.table (insertDoc tbl newKey (.arr xs))))
      | _ => .error (.bailed ("Unexpected value for `" ++ oldKey ++ "`"))
    | _ => .error (.expectFail "taxonomies value is a table")

/-- The sequence of the two `convert_taxonomy` calls made by `main`. -/
def convertBoth (fm : Doc) : Except Err Doc :=
  match convert_taxonomy fm "author" "author" with
  | .error e => .error e
  | .ok fm1 => convert_taxonomy fm1 "categories" "category"

/-! ### Kebab-casing (`heck::ToKebabCase`), for ASCII titles -/

/-- Word-mode state of heck's word splitter. -/
inductive WordMode where
  | boundary
  | low
  | up
deriving Repr, DecidableEq

/-- Mode update of heck's splitter: a lowercase char moves to `low`, an
uppercase char to `up`, anything else keeps the current mode. -/
def nextModeOf (c : Char) (m : WordMode) : WordMode :=
  if c.isLower then .low else if c.isUpper then .up else m

/-- Camel-boundary splitting of one alphanumeric word, following heck's
`transform` loop: split after a lowercase char followed by an uppercase one,
and before the last char of an uppercase run followed by a lowercase one. -/
def camelSplitAux : List Char → WordMode → List Char → List (List Char)
  | [], _, _ => []
  | [c], _, acc => [acc ++ [c]]
  | c :: next :: rest, mode, acc =>
    let nm := nextModeOf c mode
    if nm = WordMode.low ∧ next.isUpper then
      (acc ++ [c]) :: camelSplitAux (next :: rest) .boundary []
    else if mode = WordMode.up ∧ c.isUpper ∧ next.isLower then
      acc :: camelSplitAux (next :: rest) .boundary [c]
    else
      camelSplitAux (next :: rest) nm (acc ++ [c])

/-- Split a char list at non-alphanumeric chars (heck's outer word split);
empty segments are kept here and dropped by the caller. -/
def splitNonAlnum : List Char → List (List Char)
  | [] => [[]]
  | c :: cs =>
    if c.isAlphanum then
      match splitNonAlnum cs with
      | w :: ws => (c :: w) :: ws
      | [] => [[c]]
    else
      [] :: splitNonAlnum cs

/-- `heck::ToKebabCase` for ASCII input: split into words, split camel
boundaries, lowercase every word, join with hyphens. -/
def kebabCase (s : String) : String :=
  String.intercalate "-"
    ((((splitNonAlnum s.data).filter (fun w => w ≠ [])).flatMap
        (fun w => camelSplitAux w .boundary [])).map
      (fun w => (w.map Char.toLower).asString))

/-! ### The date-format assertions and path derivation -/

/-- `str::is_ascii`. -/
def strIsAscii (s : String) : Bool := s.data.all (fun c => c.toNat < 128)

/-- `&frontmatter_date[..4]`. -/
def yearOf (s : String) : String := (s.data.take 4).asString

/-- `&frontmatter_date[5..7]`. -/
def monthOf (s : String) : String := ((s.data.drop 5).take 2).asString

/-- `&frontmatter_date[8..]`. -/
def dayOf (s : String) : String := (s.data.drop 8).asString

/-- The stderr diagnostic printed on a date mismatch. -/
def mismatchWarning (gitDate fmDate : String) : String :=
  "warning: date mismatch, git date = " ++ gitDate ++ ", frontmatter date = " ++ fmDate

/-- The whitelist of frontmatter keys accepted by the unexpected-field loop
(`date` and `slug` have been removed from the map before the loop runs). -/
def recognizedB (k : String) : Bool :=
  k = "categories" || k = "author" || k = "title"

/-- Char-level prefix test (first argument is the candidate prefix). -/
def isPrefixL : List Char → List Char → Bool
  | [], _ => true
  | _ :: _, [] => false
  | c :: cs, d :: ds => c = d && isPrefixL cs ds

/-- Rust `str::starts_with`: does `s` start with `pre`? -/
def startsWithB (s pre : String) : Bool := isPrefixL pre.data s.data

/-- The stderr warning list of the date-reconciliation step: one mismatch
diagnostic when the git date does not start with the declared date. -/
def warnsOf (gitDate fmDate : String) : List String :=
  if ! startsWithB gitDate fmDate then [mismatchWarning gitDate fmDate] else []

/-- The authoritative created timestamp after reconciliation: dropped on a
prefix-match failure. -/
def dateOptOf (gitDate fmDate : String) : Option String :=
  if ! startsWithB gitDate fmDate then none else some gitDate

/-- The authoritative updated timestamp after reconciliation: dropped on a
prefix-match failure. -/
def updOptOf (gitDate fmDate : String) (gitUpdated : Option String) : Option String :=
  if ! startsWithB gitDate fmDate then none else gitUpdated

/-- Conditional insertion of a normalized timestamp (the two
`if let Some(ts) = ...` blocks of `main`). -/
def insOpt (d : Doc) (k : String) (norm : String → String) : Option String → Doc
  | some ts => insertDoc d k (.str (norm ts))
  | none => d

/-- The `path` frontmatter value derived from the declared date and slug. -/
def pathOf (ds slug : String) : String :=
  "/blog/" ++ yearOf ds ++ "/" ++ monthOf ds ++ "/" ++ dayOf ds ++ "/" ++ slug

/-- The output file path derived from the declared date and slug. -/
def outPathOf (ds slug : String) : String :=
  yearOf ds ++ "/" ++ monthOf ds ++ "/" ++ yearOf ds ++ "-" ++ monthOf ds ++ "-"
    ++ dayOf ds ++ "-" ++ slug ++ ".md"

/-- The tail of the metadata transformation, from the unexpected-field loop
onwards: the whitelist check, the four date-shape assertions, the
timestamp/path insertions and the two taxonomy conversions. -/
def transformRest (norm : String → String) (warns : List String) (fmDate : String)
    (dateOpt updatedOpt : Option String) (slug : String) (fm2 : Doc) :
    List String × Except Err (Doc × String) :=
  match fm2.find? (fun p => ! recognizedB p.1) with
  | some p =>
    (warns, .error (.bailed ("Unexpected frontmatter field `" ++ p.1 ++ "`")))
  | none =>
    if ! strIsAscii fmDate then
      (warns, .error (.assertFail "frontmatter_date.is_ascii()"))
    else if fmDate.length ≠ 10 then
      (warns, .error (.assertFail "frontmatter_date.len()"))
    else if fmDate.data.get? 4 ≠ some '-' then
      (warns, .error (.assertFail "frontmatter_date.as_bytes()[4]"))
    else if fmDate.data.get? 7 ≠ some '-' then
      (warns, .error (.assertFail "frontmatter_date.as_bytes()[7]"))
    else
      let fm5 := insertDoc (insOpt (insOpt fm2 "date" norm dateOpt) "updated" norm updatedOpt)
        "path" (.str (pathOf fmDate slug))
      match convert_taxonomy fm5 "author" "author" with
      | .error e => (warns, .error e)
      | .ok fm6 =>
        match convert_taxonomy fm6 "categories" "category" with
        | .error e => (warns, .error e)
        | .ok fm7 => (warns, .ok (fm7, outPathOf fmDate slug))

/-- The metadata transformation performed by `main` between parsing the
frontmatter and serializing it: date extraction and reconciliation against the
git timestamp, title lookup, slug derivation, then `transformRest`.  Returns
the stderr warnings and either an error or the final document together with
the derived output file path.  `norm` is the external `utc_iso_date`
timestamp normalizer. -/
def transform (norm : String → String) (fm : Doc) (gitDate : String)
    (gitUpdated : Option String) : List String × Except Err (Doc × String) :=
  match shiftRemove fm "date" with
  | (none, _) => ([], .error (.expectFail "all pages have a date"))
  | (some (.str fmDate), fm1) =>
    let warns := warnsOf gitDate fmDate
    let dateOpt := dateOptOf gitDate fmDate
    let updatedOpt := updOptOf gitDate fmDate gitUpdated
    match lookup fm1 "title" with
    | none => (warns, .error (.expectFail "IndexMap: key not found"))
    | some (.str title) =>
      (match shiftRemove fm1 "slug" with
       | (some (.str s), fm2) =>
         transformRest norm warns fmDate dateOpt updatedOpt s fm2
       | (some _, _) => (warns, .error (.bailed "slug must be a string"))
       | (none, fm2) =>
         transformRest norm warns fmDate dateOpt updatedOpt (kebabCase title) fm2)
    | some _ => (warns, .error (.expectFail "title must be a string"))
  | (some _, _) => ([], .error (.bailed "frontmatter date is not a string"))

/-! ### File reading (`read_file_contents`) -/

/-- Split a char sequence at every newline, keeping every (possibly empty)
segment, including a final empty segment for a trailing newline. -/
def splitNl : List Char → List (List Char)
  | [] => [[]]
  | c :: cs =>
    if c = '\n' then [] :: splitNl cs
    else
      match splitNl cs with
      | w :: ws => (c :: w) :: ws
      | [] => [[c]]

/-- Strip one trailing carriage return (done by `BufRead::lines` for every
line that was terminated by a newline). -/
def stripCrL (l : List Char) : List Char :=
  if l.getLast? = some '\r' then l.dropLast else l

/-- `BufRead::lines` over the split segments: every newline-terminated
segment loses a trailing `\r`; a final fragment without a newline is kept
as-is, and the empty final segment of a newline-terminated input yields no
line. -/
def rustLinesAux : List (List Char) → List (List Char)
  | [] => []
  | [last] => if last = [] then [] else [last]
  | l :: rest => stripCrL l :: rustLinesAux rest

/-- The lines of an input text, as produced by `BufRead::lines`. -/
def linesChars (cs : List Char) : List (List Char) := rustLinesAux (splitNl cs)

/-- The lines of an input text, as `String`s. -/
def rustLines (s : String) : List String := (linesChars s.data).map List.asString

/-- `itertools::join("\n")`: lines joined with newline separators. -/
def joinNl : List String → String
  | [] => ""
  | [l] => l
  | l :: rest => l ++ "\n" ++ joinNl rest

/-- The scan loop of `read_file_contents`: accumulate frontmatter lines (each
with a pushed newline) until a closing `---` line; everything after it is
joined into the markdown body. -/
def findFrontmatterEnd : List String → String → Except Err (String × String)
  | [], _ => .error (.bailed "Could not find end of frontmatter")
  | l :: ls, acc =>
    if l = "---" then .ok (acc, joinNl ls)
    else findFrontmatterEnd ls (acc ++ l ++ "\n")

/-- `read_file_contents`: require a leading `---` line, split off the YAML
frontmatter block, and join the remaining lines into the body. -/
def read_file_contents (text : String) : Except Err (String × String) :=
  match rustLines text with
  | [] => .error (.expectFail "input file is non-empty")
  | first :: rest =>
    if first = "---" then findFrontmatterEnd rest ""
    else .error (.assertFail "File must start with YAML frontmatter")

/-! ### Timestamps (`git_timestamps`) -/

/-- `git_timestamps`, applied to the lines returned by
`git log --format=%cd --date=iso-strict` (newest first): the first line is
the `date`, the last of the remaining lines (if any) is `updated`.  The
working-directory manipulation around the shell call is not modelled. -/
def git_timestamps (gitLog : List String) : Except Err (String × Option String) :=
  match gitLog with
  | [] => .error (.expectFail "git log command returned at least one line")
  | d :: rest => .ok (d, rest.getLast?)

/-! ### The entry point (`main`) -/

/-- Observable side effects of a run: a stderr diagnostic, `create_dir_all`,
and the final output-file write. -/
inductive Effect where
  | warn (msg : String)
  | mkdirAll (path : String)
  | writeFile (path : String) (contents : String)

/-- Whether an effect is only a stderr diagnostic. -/
def effIsWarn : Effect → Bool
  | .warn _ => true
  | _ => false

/-- Split a char sequence at every `/` (for path components). -/
def splitSlash : List Char → List (List Char)
  | [] => [[]]
  | c :: cs =>
    if c = '/' then [] :: splitSlash cs
    else
      match splitSlash cs with
      | w :: ws => (c :: w) :: ws
      | [] => [[c]]

/-- The components of a `/`-separated path, as compared by Rust's
`Path::ends_with` (empty and `.` components are skipped). -/
def pathComponents (p : String) : List String :=
  ((splitSlash p.data).map List.asString).filter (fun c => c ≠ "" && c ≠ ".")

/-- `input_path.ends_with(".mdx")`: `Path::ends_with` compares whole path
components, so this holds exactly when the final component is the literal
`.mdx`. -/
def pathEndsWithMdx (p : String) : Bool :=
  match (pathComponents p).getLast? with
  | some c => c = ".mdx"
  | none => false

/-- `Path::parent` of the derived output path. -/
def parentDir (p : String) : String :=
  String.intercalate "/" (((splitSlash p.data).map List.asString).dropLast)

/-- The serialization and write step, after the frontmatter has been parsed:
transform the metadata, serialize, create the parent directory, and write the
output file (`writeln!` appends one final newline). -/
def runAfterParse (norm : String → String) (tomlSer : Doc → String)
    (gitDate : String) (gitUpdated : Option String) (markdown : String)
    (fm : Doc) : List Effect × Except Err (String × String) :=
  match transform norm fm gitDate gitUpdated with
  | (warns, .error e) => (warns.map Effect.warn, .error e)
  | (warns, .ok (fmFinal, outPath)) =>
    let contents := "+++\n" ++ tomlSer fmFinal ++ "+++\n" ++ markdown ++ "\n"
    (warns.map Effect.warn
       ++ [Effect.mkdirAll (parentDir outPath),
           Effect.writeFile outPath contents],
     .ok (outPath, contents))

/-- The run once the input has been split into frontmatter and body: parse
the YAML frontmatter, then `runAfterParse`. -/
def runAfterRead (norm : String → String) (tomlSer : Doc → String)
    (parse : String → Option Doc) (gitDate : String) (gitUpdated : Option String)
    (yamlFrontmatter markdown : String) : List Effect × Except Err (String × String) :=
  match parse yamlFrontmatter with
  | none => ([], .error (.bailed "serde_yaml parse error"))
  | some fm => runAfterParse norm tomlSer gitDate gitUpdated markdown fm

/-- The run from after the `.mdx` assertion and the git query onwards: read
and split the input file, then `runAfterRead`. -/
def runAfterGit (norm : String → String) (tomlSer : Doc → String)
    (parse : String → Option Doc) (gitDate : String) (gitUpdated : Option String)
    (fileText : String) : List Effect × Except Err (String × String) :=
  match read_file_contents fileText with
  | .error e => ([], .error e)
  | .ok (yamlFrontmatter, markdown) =>
    runAfterRead norm tomlSer parse gitDate gitUpdated yamlFrontmatter markdown

/-- The run from after the `.mdx` assertion onwards: the `git log` timestamp
query, then `runAfterGit`. -/
def runAfterAssert (norm : String → String) (tomlSer : Doc → String)
    (parse : String → Option Doc) (gitLog : List String) (fileText : String) :
    List Effect × Except Err (String × String) :=
  match git_timestamps gitLog with
  | .error e => ([], .error e)
  | .ok (gitDate, gitUpdated) =>
    runAfterGit norm tomlSer parse gitDate gitUpdated fileText

/-- The whole program run.  `norm` is the `date`-command timestamp
normalizer, `tomlSer` the TOML serializer, `parse` the YAML parser (returning
`none` on a parse error); `gitLog` is the line list produced by the `git log`
query for the input file and `fileText` the input file's contents.  Returns
the effect trace and either an error or the written (path, contents) pair. -/
def runMain (norm : String → String) (tomlSer : Doc → String)
    (parse : String → Option Doc) (args : List String)
    (gitLog : List String) (fileText : String) :
    List Effect × Except Err (String × String) :=
  match args with
  | [input] =>
    if pathEndsWithMdx input then
      runAfterAssert norm tomlSer parse gitLog fileText
    else ([], .error (.assertFail "input_path.ends_with(.mdx)"))
  | _ =>
    ([Effect.warn "must receive exactly one command line argument (input file)"],
     .error .usage)

/-- Whether an `Except` result is a success. -/
def isOkE : Except Err (Doc × String) → Bool
  | .ok _ => true
  | .error _ => false

/-- Lookup into the document of a successful result (`none` on error). -/
def resLookup (r : Except Err Doc) (k : String) : Option Value :=
  match r with
  | .ok d => lookup d k
  | .error _ => none

/-- Whether a taxonomy-conversion result is a success. -/
def isOkD : Except Err Doc → Bool
  | .ok _ => true
  | .error _ => false

/-! ## Lemmas about the document operations -/

theorem lookup_eq_none_iff (d : Doc) (k : String) :
    lookup d k = none ↔ k ∉ keys d := by
  induction d with
  | nil => simp [lookup, keys]
  | cons p rest ih =>
    obtain ⟨k0, v⟩ := p
    by_cases h : k0 = k
    · subst h
      simp [lookup, keys]
    · simp [lookup, keys, h, ih, Ne.symm h]

theorem lookup_mem (d : Doc) (k : String) (v : Value)
    (h : lookup d k = some v) : (k, v) ∈ d := by
  induction d with
  | nil => simp [lookup] at h
  | cons p rest ih =>
    obtain ⟨k0, v0⟩ := p
    by_cases hk : k0 = k
    · subst hk
      simp [lookup] at h
      simp [h]
    · simp [lookup, hk] at h
      exact List.mem_cons_of_mem _ (ih h)

theorem mem_lookup_of_nodup (d : Doc) (k : String) (v : Value)
    (hnd : (keys d).Nodup) (h : (k, v) ∈ d) : lookup d k = some v := by
  induction d with
  | nil => simp at h
  | cons p rest ih =>
    obtain ⟨k0, v0⟩ := p
    simp only [keys, List.map_cons, List.nodup_cons] at hnd
    rcases List.mem_cons.mp h with h1 | h1
    · obtain ⟨rfl, rfl⟩ := Prod.mk.injEq .. ▸ h1
      simp [lookup]
    · have hk : k0 ≠ k := by
        rintro rfl
        exact hnd.1 (List.mem_map_of_mem Prod.fst h1)
      simp [lookup, hk]
      exact ih hnd.2 h1

theorem lookup_insertDoc_self (d : Doc) (k : String) (v : Value) :
    lookup (insertDoc d k v) k = some v := by
  induction d with
  | nil => simp [insertDoc, lookup]
  | cons p rest ih =>
    obtain ⟨k0, v0⟩ := p
    by_cases h : k0 = k
    · simp [insertDoc, h, lookup]
    · simp [insertDoc, h, lookup, ih]

theorem lookup_insertDoc_ne (d : Doc) (k k' : String) (v : Value)
    (h : k' ≠ k) : lookup (insertDoc d k v) k' = lookup d k' := by
  induction d with
  | nil => simp [insertDoc, lookup, Ne.symm h]
  | cons p rest ih =>
    obtain ⟨k0, v0⟩ := p
    by_cases h0 : k0 = k
    · subst h0
      simp [insertDoc, lookup, Ne.symm h]
    · simp only [insertDoc, if_neg h0]
      by_cases h1 : k0 = k'
      · simp [lookup, h1]
      · simp [lookup, h1, ih]

theorem mem_keys_insertDoc (d : Doc) (k k' : String) (v : Value) :
    k' ∈ keys (insertDoc d k v) ↔ k' = k ∨ k' ∈ keys d := by
  induction d with
  | nil => simp [insertDoc, keys]
  | cons p rest ih =>
    obtain ⟨k0, v0⟩ := p
    by_cases h : k0 = k
    · subst h
      simp [insertDoc, keys]
    · simp [insertDoc, h, keys] at ih ⊢
      tauto

theorem nodup_keys_insertDoc (d : Doc) (k : String) (v : Value)
    (hnd : (keys d).Nodup) : (keys (insertDoc d k v)).Nodup := by
  induction d with
  | nil => simp [insertDoc, keys]
  | cons p rest ih =>
    obtain ⟨k0, v0⟩ := p
    simp only [keys, List.map_cons, List.nodup_cons] at hnd
    by_cases h : k0 = k
    · subst h
      have he : insertDoc ((k0, v0) :: rest) k0 v = (k0, v) :: rest := by
        simp [insertDoc]
      rw [he]
      simp only [keys, List.map_cons, List.nodup_cons]
      exact hnd
    · simp only [insertDoc, if_neg h, keys, List.map_cons, List.nodup_cons]
      refine ⟨fun hm => ?_, ih hnd.2⟩
      rcases (mem_keys_insertDoc rest k k0 v).mp hm with h1 | h1
      · exact h h1
      · exact hnd.1 h1

theorem shiftRemove_snd_sublist (d : Doc) (k : String) :
    (shiftRemove d k).2.Sublist d := by
  induction d with
  | nil => simp [shiftRemove]
  | cons p rest ih =>
    obtain ⟨k0, v0⟩ := p
    by_cases h : k0 = k
    · simp only [shiftRemove, if_pos h]
      exact List.sublist_cons_self _ _
    · simp only [shiftRemove, if_neg h]
      exact List.Sublist.cons₂ _ ih

theorem keys_shiftRemove_sublist (d : Doc) (k : String) :
    (keys (shiftRemove d k).2).Sublist (keys d) :=
  List.Sublist.map Prod.fst (shiftRemove_snd_sublist d k)

theorem nodup_keys_shiftRemove (d : Doc) (k : String)
    (hnd : (keys d).Nodup) : (keys (shiftRemove d k).2).Nodup :=
  List.Nodup.sublist (keys_shiftRemove_sublist d k) hnd

theorem lookup_shiftRemove_ne (d : Doc) (k k' : String) (h : k' ≠ k) :
    lookup (shiftRemove d k).2 k' = lookup d k' := by
  induction d with
  | nil => simp [shiftRemove]
  | cons p rest ih =>
    obtain ⟨k0, v0⟩ := p
    by_cases h0 : k0 = k
    · subst h0
      simp [shiftRemove, lookup, Ne.symm h]
    · by_cases h1 : k0 = k'
      · subst h1
        simp [shiftRemove, h0, lookup]
      · simp [shiftRemove, h0, lookup, h1, ih]

theorem swapFill_perm (l : Doc) : (swapFill l).Perm l := by
  unfold swapFill
  match hl : l.getLast? with
  | none => simp [List.getLast?_eq_none_iff.mp hl]
  | some last =>
    have hdl : l.dropLast ++ [last] = l := List.dropLast_append_getLast? last hl
    calc (last :: l.dropLast).Perm (l.dropLast ++ [last]) := by
          exact @List.perm_append_comm _ [last] l.dropLast
      _ = l := hdl

theorem mem_swapRemove (d : Doc) (k : String) (p : String × Value)
    (h : p ∈ (swapRemove d k).2) : p ∈ d := by
  induction d with
  | nil => simp [swapRemove] at h
  | cons q rest ih =>
    obtain ⟨k0, v0⟩ := q
    by_cases h0 : k0 = k
    · simp only [swapRemove, if_pos h0] at h
      exact List.mem_cons_of_mem _ ((swapFill_perm rest).mem_iff.mp h)
    · simp only [swapRemove, if_neg h0] at h
      rcases List.mem_cons.mp h with h1 | h1
      · exact h1 ▸ List.mem_cons_self _ _
      · exact List.mem_cons_of_mem _ (ih h1)

theorem mem_keys_swapRemove (d : Doc) (k k' : String)
    (h : k' ∈ keys (swapRemove d k).2) : k' ∈ keys d := by
  simp only [keys, List.mem_map] at h ⊢
  obtain ⟨p, hp, rfl⟩ := h
  exact ⟨p, mem_swapRemove d k p hp, rfl⟩

theorem nodup_keys_swapRemove (d : Doc) (k : String)
    (hnd : (keys d).Nodup) : (keys (swapRemove d k).2).Nodup := by
  induction d with
  | nil => simp [swapRemove, keys]
  | cons q rest ih =>
    obtain ⟨k0, v0⟩ := q
    simp only [keys, List.map_cons, List.nodup_cons] at hnd
    by_cases h0 : k0 = k
    · simp only [swapRemove, if_pos h0]
      exact (((swapFill_perm rest).map Prod.fst).nodup_iff).mpr hnd.2
    · simp only [swapRemove, if_neg h0, keys, List.map_cons, List.nodup_cons]
      exact ⟨fun hm => hnd.1 (mem_keys_swapRemove rest k k0 hm), ih hnd.2⟩

theorem not_mem_keys_swapRemove_self (d : Doc) (k : String)
    (hnd : (keys d).Nodup) : k ∉ keys (swapRemove d k).2 := by
  induction d with
  | nil => simp [swapRemove, keys]
  | cons q rest ih =>
    obtain ⟨k0, v0⟩ := q
    simp only [keys, List.map_cons, List.nodup_cons] at hnd
    by_cases h0 : k0 = k
    · subst h0
      simp only [swapRemove, if_pos rfl]
      intro hm
      exact hnd.1 (((swapFill_perm rest).map Prod.fst).mem_iff.mp hm)
    · simp only [swapRemove, if_neg h0, keys, List.map_cons, List.mem_cons]
      rintro (rfl | hm)
      · exact h0 rfl
      · exact ih hnd.2 hm

theorem lookup_swapRemove_ne (d : Doc) (k k' : String)
    (hnd : (keys d).Nodup) (h : k' ≠ k) :
    lookup (swapRemove d k).2 k' = lookup d k' := by
  induction d with
  | nil => simp [swapRemove]
  | cons q rest ih =>
    obtain ⟨k0, v0⟩ := q
    simp only [keys, List.map_cons, List.nodup_cons] at hnd
    by_cases h0 : k0 = k
    · subst h0
      have hperm := swapFill_perm rest
      have hndr : (keys (swapFill rest)).Nodup :=
        ((hperm.map Prod.fst).nodup_iff).mpr hnd.2
      have hmain : lookup (swapFill rest) k' = lookup rest k' := by
        cases hsf : lookup (swapFill rest) k' with
        | none =>
          cases hr : lookup rest k' with
          | none => rfl
          | some v =>
            exfalso
            have hm : (k', v) ∈ swapFill rest :=
              hperm.mem_iff.mpr (lookup_mem rest k' v hr)
            rw [mem_lookup_of_nodup _ _ _ hndr hm] at hsf
            exact Option.noConfusion hsf
        | some v =>
          have hm : (k', v) ∈ rest :=
            hperm.mem_iff.mp (lookup_mem (swapFill rest) k' v hsf)
          exact (mem_lookup_of_nodup rest k' v hnd.2 hm).symm
      simp [swapRemove, lookup, Ne.symm h, hmain]
    · by_cases h1 : k0 = k'
      · subst h1
        simp [swapRemove, h0, lookup]
      · simp [swapRemove, h0, lookup, h1, ih hnd.2]

theorem swapRemove_of_absent (d : Doc) (k : String)
    (h : lookup d k = none) : swapRemove d k = (none, d) := by
  induction d with
  | nil => simp [swapRemove]
  | cons q rest ih =>
    obtain ⟨k0, v0⟩ := q
    by_cases h0 : k0 = k
    · simp [lookup, h0] at h
    · simp only [lookup, if_neg h0] at h
      simp [swapRemove, h0, ih h]

theorem swapRemove_fst (d : Doc) (k : String) :
    (swapRemove d k).1 = lookup d k := by
  induction d with
  | nil => simp [swapRemove, lookup]
  | cons q rest ih =>
    obtain ⟨k0, v0⟩ := q
    by_cases h0 : k0 = k
    · simp [swapRemove, h0, lookup]
    · simp [swapRemove, h0, lookup, ih]

theorem swapRemove_eta (d : Doc) (k : String) (v : Value)
    (h : lookup d k = some v) :
    swapRemove d k = (some v, (swapRemove d k).2) := by
  rw [← h, ← swapRemove_fst d k]

/-! ## Lemmas about `convert_taxonomy` -/

theorem convert_taxonomy_of_absent (d : Doc) (old nw : String)
    (h : lookup d old = none) : convert_taxonomy d old nw = .ok d := by
  unfold convert_taxonomy
  rw [swapRemove_of_absent d old h]

/-- A successful `convert_taxonomy` either leaves the document unchanged (key
absent) or produces `insertDoc fm2 "taxonomies" (table _)` where `fm2` is the
swap-removed document, possibly with a fresh empty `taxonomies` table. -/
theorem convert_taxonomy_ok_shape (d d' : Doc) (old nw : String)
    (h : convert_taxonomy d old nw = .ok d') :
    d' = d ∨
      ∃ fm2 tbl,
        (fm2 = (swapRemove d old).2 ∨
          fm2 = insertDoc (swapRemove d old).2 "taxonomies" (Value.table [])) ∧
        d' = insertDoc fm2 "taxonomies" (Value.table tbl) := by
  unfold convert_taxonomy at h
  cases hsw : swapRemove d old with
  | mk vo d1 =>
    rw [hsw] at h
    cases vo with
    | none =>
      simp only [Except.ok.injEq] at h
      exact Or.inl h.symm
    | some value =>
      simp only at h
      by_cases hts : (lookup d1 "taxonomies").isSome
      · rw [if_pos hts] at h
        cases hlt : lookup d1 "taxonomies" with
        | none => rw [hlt] at hts; simp at hts
        | some tv =>
          rw [hlt] at h
          cases tv with
          | table tbl =>
            cases value with
            | str s =>
              simp only [Except.ok.injEq] at h
              exact Or.inr ⟨d1, _, Or.inl rfl, h.symm⟩
            | arr xs =>
              simp only [Except.ok.injEq] at h
              exact Or.inr ⟨d1, _, Or.inl rfl, h.symm⟩
            | int n => simp at h
            | boolean b => simp at h
            | table kvs => simp at h
          | str s => simp at h
          | int n => simp at h
          | boolean b => simp at h
          | arr xs => simp at h
      · rw [if_neg hts] at h
        rw [lookup_insertDoc_self d1 "taxonomies" (Value.table [])] at h
        cases value with
        | str s =>
          simp only [Except.ok.injEq] at h
          exact Or.inr ⟨_, _, Or.inr rfl, h.symm⟩
        | arr xs =>
          simp only [Except.ok.injEq] at h
          exact Or.inr ⟨_, _, Or.inr rfl, h.symm⟩
        | int n => simp at h
        | boolean b => simp at h
        | table kvs => simp at h

theorem convert_taxonomy_keys (d d' : Doc) (old nw k : String)
    (h : convert_taxonomy d old nw = .ok d') (hk : k ∈ keys d') :
    k ∈ keys d ∨ k = "taxonomies" := by
  rcases convert_taxonomy_ok_shape d d' old nw h with rfl | ⟨fm2, tbl, hfm2, rfl⟩
  · exact Or.inl hk
  · rcases (mem_keys_insertDoc fm2 "taxonomies" k (Value.table tbl)).mp hk with h1 | h1
    · exact Or.inr h1
    · rcases hfm2 with rfl | rfl
      · exact Or.inl (mem_keys_swapRemove d old k h1)
      · rcases (mem_keys_insertDoc _ "taxonomies" k (Value.table [])).mp h1 with h2 | h2
        · exact Or.inr h2
        · exact Or.inl (mem_keys_swapRemove d old k h2)

theorem convert_taxonomy_not_mem (d d' : Doc) (old nw k : String)
    (h : convert_taxonomy d old nw = .ok d') (hkt : k ≠ "taxonomies")
    (hk : k ∉ keys d) : k ∉ keys d' := by
  intro hm
  rcases convert_taxonomy_keys d d' old nw k h hm with h1 | h1
  · exact hk h1
  · exact hkt h1

theorem convert_taxonomy_nodup (d d' : Doc) (old nw : String)
    (hnd : (keys d).Nodup) (h : convert_taxonomy d old nw = .ok d') :
    (keys d').Nodup := by
  rcases convert_taxonomy_ok_shape d d' old nw h with rfl | ⟨fm2, tbl, hfm2, rfl⟩
  · exact hnd
  · have hnd1 : (keys (swapRemove d old).2).Nodup := nodup_keys_swapRemove d old hnd
    rcases hfm2 with rfl | rfl
    · exact nodup_keys_insertDoc _ _ _ hnd1
    · exact nodup_keys_insertDoc _ _ _ (nodup_keys_insertDoc _ _ _ hnd1)

theorem convert_taxonomy_lookup_ne (d d' : Doc) (old nw k : String)
    (hnd : (keys d).Nodup) (hko : k ≠ old) (hkt : k ≠ "taxonomies")
    (h : convert_taxonomy d old nw = .ok d') : lookup d' k = lookup d k := by
  rcases convert_taxonomy_ok_shape d d' old nw h with rfl | ⟨fm2, tbl, hfm2, rfl⟩
  · rfl
  · rw [lookup_insertDoc_ne _ _ _ _ hkt]
    rcases hfm2 with rfl | rfl
    · exact lookup_swapRemove_ne d old k hnd hko
    · rw [lookup_insertDoc_ne _ _ _ _ hkt]
      exact lookup_swapRemove_ne d old k hnd hko

theorem convert_taxonomy_str (d : Doc) (old nw s : String)
    (htax : lookup d "taxonomies" = none)
    (h : lookup d old = some (Value.str s)) :
    convert_taxonomy d old nw =
      .ok (insertDoc (insertDoc (swapRemove d old).2 "taxonomies" (Value.table []))
            "taxonomies" (Value.table [(nw, Value.arr [Value.str s])])) := by
  have htax1 : lookup (swapRemove d old).2 "taxonomies" = none := by
    rw [lookup_eq_none_iff] at htax ⊢
    exact fun hm => htax (mem_keys_swapRemove d old _ hm)
  unfold convert_taxonomy
  rw [swapRemove_eta d old _ h]
  simp only [htax1, Option.isSome_none, Bool.false_eq_true, if_false,
    lookup_insertDoc_self]
  rfl

theorem convert_taxonomy_arr (d : Doc) (old nw : String) (xs : List Value)
    (htax : lookup d "taxonomies" = none)
    (h : lookup d old = some (Value.arr xs)) :
    convert_taxonomy d old nw =
      .ok (insertDoc (insertDoc (swapRemove d old).2 "taxonomies" (Value.table []))
            "taxonomies" (Value.table [(nw, Value.arr xs)])) := by
  have htax1 : lookup (swapRemove d old).2 "taxonomies" = none := by
    rw [lookup_eq_none_iff] at htax ⊢
    exact fun hm => htax (mem_keys_swapRemove d old _ hm)
  unfold convert_taxonomy
  rw [swapRemove_eta d old _ h]
  simp only [htax1, Option.isSome_none, Bool.false_eq_true, if_false,
    lookup_insertDoc_self]
  rfl

theorem convert_taxonomy_badval (d : Doc) (old nw : String) (v : Value)
    (htax : lookup d "taxonomies" = none)
    (h : lookup d old = some v)
    (hs : ∀ s, v ≠ Value.str s) (ha : ∀ xs, v ≠ Value.arr xs) :
    convert_taxonomy d old nw =
      .error (.bailed ("Unexpected value for `" ++ old ++ "`")) := by
  have htax1 : lookup (swapRemove d old).2 "taxonomies" = none := by
    rw [lookup_eq_none_iff] at htax ⊢
    exact fun hm => htax (mem_keys_swapRemove d old _ hm)
  unfold convert_taxonomy
  rw [swapRemove_eta d old _ h]
  cases v with
  | str s => exact absurd rfl (hs s)
  | arr xs => exact absurd rfl (ha xs)
  | int n =>
    simp only [htax1, Option.isSome_none, Bool.false_eq_true, if_false,
      lookup_insertDoc_self]
  | boolean b =>
    simp only [htax1, Option.isSome_none, Bool.false_eq_true, if_false,
      lookup_insertDoc_self]
  | table kvs =>
    simp only [htax1, Option.isSome_none, Bool.false_eq_true, if_false,
      lookup_insertDoc_self]

theorem insertDoc_insertDoc_same (d : Doc) (k : String) (v1 v2 : Value) :
    insertDoc (insertDoc d k v1) k v2 = insertDoc d k v2 := by
  induction d with
  | nil => simp [insertDoc]
  | cons p rest ih =>
    obtain ⟨k0, v0⟩ := p
    by_cases h : k0 = k
    · simp [insertDoc, h]
    · simp [insertDoc, h, ih]

theorem convert_taxonomy_str_present (d : Doc) (old nw s : String)
    (tbl0 : List (String × Value))
    (hnd : (keys d).Nodup) (hot : old ≠ "taxonomies")
    (htax : lookup d "taxonomies" = some (Value.table tbl0))
    (h : lookup d old = some (Value.str s)) :
    convert_taxonomy d old nw =
      .ok (insertDoc (swapRemove d old).2 "taxonomies"
            (Value.table (insertDoc tbl0 nw (Value.arr [Value.str s])))) := by
  have htax1 : lookup (swapRemove d old).2 "taxonomies" = some (Value.table tbl0) := by
    rw [lookup_swapRemove_ne d old "taxonomies" hnd (Ne.symm hot)]
    exact htax
  unfold convert_taxonomy
  rw [swapRemove_eta d old _ h]
  simp only [htax1, Option.isSome_some, if_true]

theorem convert_taxonomy_arr_present (d : Doc) (old nw : String) (xs : List Value)
    (tbl0 : List (String × Value))
    (hnd : (keys d).Nodup) (hot : old ≠ "taxonomies")
    (htax : lookup d "taxonomies" = some (Value.table tbl0))
    (h : lookup d old = some (Value.arr xs)) :
    convert_taxonomy d old nw =
      .ok (insertDoc (swapRemove d old).2 "taxonomies"
            (Value.table (insertDoc tbl0 nw (Value.arr xs)))) := by
  have htax1 : lookup (swapRemove d old).2 "taxonomies" = some (Value.table tbl0) := by
    rw [lookup_swapRemove_ne d old "taxonomies" hnd (Ne.symm hot)]
    exact htax
  unfold convert_taxonomy
  rw [swapRemove_eta d old _ h]
  simp only [htax1, Option.isSome_some, if_true]

theorem convert_taxonomy_badval_present (d : Doc) (old nw : String) (v : Value)
    (tbl0 : List (String × Value))
    (hnd : (keys d).Nodup) (hot : old ≠ "taxonomies")
    (htax : lookup d "taxonomies" = some (Value.table tbl0))
    (h : lookup d old = some v)
    (hs : ∀ s, v ≠ Value.str s) (ha : ∀ xs, v ≠ Value.arr xs) :
    convert_taxonomy d old nw =
      .error (.bailed ("Unexpected value for `" ++ old ++ "`")) := by
  have htax1 : lookup (swapRemove d old).2 "taxonomies" = some (Value.table tbl0) := by
    rw [lookup_swapRemove_ne d old "taxonomies" hnd (Ne.symm hot)]
    exact htax
  unfold convert_taxonomy
  rw [swapRemove_eta d old _ h]
  cases v with
  | str s => exact absurd rfl (hs s)
  | arr xs => exact absurd rfl (ha xs)
  | int n => simp only [htax1, Option.isSome_some, if_true]
  | boolean b => simp only [htax1, Option.isSome_some, if_true]
  | table kvs => simp only [htax1, Option.isSome_some, if_true]

/-- The current `taxonomies` table of a document (empty when absent), i.e.
what `entry("taxonomies").or_insert_with(Table::new)` hands to
`convert_taxonomy`. -/
def tblOf (d : Doc) : List (String × Value) :=
  match lookup d "taxonomies" with
  | some (.table t) => t
  | _ => []

/-- The coercion applied to a taxonomy value: a lone string becomes a
one-element array, everything else is kept as-is. -/
def taxonomyArray : Value → Value
  | .str s => .arr [.str s]
  | v => v

/-! ## Lemmas about line splitting and joining -/

theorem splitNl_ne_nil (cs : List Char) : splitNl cs ≠ [] := by
  cases cs with
  | nil => simp [splitNl]
  | cons c cs =>
    by_cases h : c = '\n'
    · simp [splitNl, h]
    · simp only [splitNl, if_neg h]
      cases splitNl cs <;> simp

theorem splitNl_append_nl (l rest : List Char) (h : '\n' ∉ l) :
    splitNl (l ++ '\n' :: rest) = l :: splitNl rest := by
  induction l with
  | nil => simp [splitNl]
  | cons c cs ih =>
    have hc : c ≠ '\n' := fun hc => h (hc ▸ List.mem_cons_self c cs)
    have hcs : '\n' ∉ cs := fun hm => h (List.mem_cons_of_mem c hm)
    simp only [List.cons_append, splitNl, if_neg hc]
    rw [show cs.append ('\n' :: rest) = cs ++ '\n' :: rest from rfl, ih hcs]

theorem splitNl_no_nl (cs : List Char) (h : '\n' ∉ cs) :
    splitNl cs = [cs] := by
  induction cs with
  | nil => simp [splitNl]
  | cons c cs ih =>
    have hc : c ≠ '\n' := fun hc => h (hc ▸ List.mem_cons_self c cs)
    have hcs : '\n' ∉ cs := fun hm => h (List.mem_cons_of_mem c hm)
    simp only [splitNl, if_neg hc, ih hcs]

theorem stripCrL_of_no_cr (l : List Char) (h : l.getLast? ≠ some '\r') :
    stripCrL l = l := by
  unfold stripCrL
  rw [if_neg h]

theorem linesChars_cons_nl (l rest : List Char) (h1 : '\n' ∉ l)
    (h2 : l.getLast? ≠ some '\r') :
    linesChars (l ++ '\n' :: rest) = l :: linesChars rest := by
  unfold linesChars
  rw [splitNl_append_nl l rest h1]
  obtain ⟨s, ss, hss⟩ : ∃ s ss, splitNl rest = s :: ss := by
    cases hs : splitNl rest with
    | nil => exact absurd hs (splitNl_ne_nil rest)
    | cons s ss => exact ⟨s, ss, rfl⟩
  rw [hss]
  show stripCrL l :: rustLinesAux (s :: ss) = l :: rustLinesAux (s :: ss)
  rw [stripCrL_of_no_cr l h2]

/-- Lines without embedded newlines, joined by `joinNl` and split back by
`BufRead::lines`, round-trip exactly (the last line must be nonempty, since a
trailing empty line is indistinguishable from a trailing newline). -/
theorem linesChars_joinNl (bls : List String)
    (h1 : ∀ l ∈ bls, '\n' ∉ l.data)
    (h2 : ∀ l ∈ bls, l.data.getLast? ≠ some '\r')
    (h3 : bls.getLast? ≠ some "") :
    (linesChars (joinNl bls).data).map List.asString = bls := by
  induction bls with
  | nil => simp [joinNl, linesChars, splitNl, rustLinesAux]
  | cons l bls ih =>
    cases bls with
    | nil =>
      have hne : l ≠ "" := by
        intro hl
        exact h3 (by simp [hl])
      have hdata : l.data ≠ [] := fun hd => hne (String.ext hd)
      unfold joinNl linesChars
      rw [splitNl_no_nl l.data (h1 l (by simp))]
      show (rustLinesAux [l.data]).map List.asString = [l]
      unfold rustLinesAux
      rw [if_neg hdata]
      simp only [List.map_cons, List.map_nil, List.cons.injEq, and_true]
      cases l
      rfl
    | cons l2 bls2 =>
      have hjoin : joinNl (l :: l2 :: bls2) = l ++ "\n" ++ joinNl (l2 :: bls2) := rfl
      have hdata : (joinNl (l :: l2 :: bls2)).data
          = l.data ++ '\n' :: (joinNl (l2 :: bls2)).data := by
        rw [hjoin, String.data_append, String.data_append,
          show "\n".data = ['\n'] from rfl, List.append_assoc]
        rfl
      rw [hdata,
        linesChars_cons_nl l.data _ (h1 l (by simp)) (h2 l (by simp))]
      have ihh := ih (fun x hx => h1 x (List.mem_cons_of_mem l hx))
        (fun x hx => h2 x (List.mem_cons_of_mem l hx))
        (by simpa using h3)
      simp only [List.map_cons, ihh, List.cons.injEq, and_true]
      rfl

/-! ## Stage lemmas about `transform` -/

/-- Reduction of `transform` once the date extraction and the title lookup
are pinned down. -/
theorem transform_eq_rest (norm : String → String) (fm : Doc) (gd : String)
    (gu : Option String) (ds : String) (fm1 : Doc) (title : String)
    (hdate : shiftRemove fm "date" = (some (Value.str ds), fm1))
    (htitle : lookup fm1 "title" = some (Value.str title)) :
    transform norm fm gd gu =
      (match shiftRemove fm1 "slug" with
       | (some (Value.str s), fm2) =>
         transformRest norm (warnsOf gd ds) ds (dateOptOf gd ds) (updOptOf gd ds gu) s fm2
       | (some _, _) => (warnsOf gd ds, .error (.bailed "slug must be a string"))
       | (none, fm2) =>
         transformRest norm (warnsOf gd ds) ds (dateOptOf gd ds) (updOptOf gd ds gu)
           (kebabCase title) fm2) := by
  unfold transform
  rw [hdate]
  simp only [htitle]

/-- A successful `transformRest` implies that the whitelist check and the four
date-shape assertions passed, and exposes the two taxonomy-conversion steps
leading to the final document. -/
theorem transformRest_ok (norm : String → String) (warns : List String)
    (fmDate : String) (dateOpt updatedOpt : Option String) (slug : String)
    (fm2 : Doc) (ws : List String) (doc : Doc) (op : String)
    (h : transformRest norm warns fmDate dateOpt updatedOpt slug fm2 = (ws, .ok (doc, op))) :
    ws = warns ∧
      fm2.find? (fun p => ! recognizedB p.1) = none ∧
      strIsAscii fmDate = true ∧ fmDate.length = 10 ∧
      fmDate.data.get? 4 = some '-' ∧ fmDate.data.get? 7 = some '-' ∧
      ∃ fm6,
        convert_taxonomy
            (insertDoc (insOpt (insOpt fm2 "date" norm dateOpt) "updated" norm updatedOpt)
              "path" (.str (pathOf fmDate slug)))
            "author" "author" = .ok fm6 ∧
        convert_taxonomy fm6 "categories" "category" = .ok doc ∧
        op = outPathOf fmDate slug := by
  unfold transformRest at h
  cases hfind : fm2.find? (fun p => ! recognizedB p.1) with
  | some p => rw [hfind] at h; simp at h
  | none =>
    rw [hfind] at h
    cases h1 : strIsAscii fmDate with
    | false => rw [h1] at h; simp at h
    | true =>
      rw [h1] at h
      rw [if_neg (by simp)] at h
      by_cases h2 : fmDate.length = 10
      case neg => rw [if_pos h2] at h; simp at h
      rw [if_neg (fun hc => hc h2)] at h
      by_cases h3 : fmDate.data.get? 4 = some '-'
      case neg => rw [if_pos h3] at h; simp at h
      rw [if_neg (fun hc => hc h3)] at h
      by_cases h4 : fmDate.data.get? 7 = some '-'
      case neg => rw [if_pos h4] at h; simp at h
      rw [if_neg (fun hc => hc h4)] at h
      dsimp only at h
      cases hca : convert_taxonomy
          (insertDoc (insOpt (insOpt fm2 "date" norm dateOpt) "updated" norm updatedOpt)
            "path" (.str (pathOf fmDate slug))) "author" "author" with
      | error e => rw [hca] at h; simp at h
      | ok fm6 =>
        rw [hca] at h
        dsimp only at h
        cases hcc : convert_taxonomy fm6 "categories" "category" with
        | error e => rw [hcc] at h; simp at h
        | ok fm7 =>
          rw [hcc] at h
          dsimp only at h
          simp only [Prod.mk.injEq, Except.ok.injEq] at h
          exact ⟨h.1.symm, rfl, rfl, h2, h3, h4, fm6, rfl, h.2.1 ▸ hcc, h.2.2.symm⟩

theorem find?_none_recognized (fm2 : Doc)
    (h : fm2.find? (fun p => ! recognizedB p.1) = none) :
    ∀ k ∈ keys fm2, recognizedB k = true := by
  intro k hk
  obtain ⟨p, hm, rfl⟩ : ∃ p ∈ fm2, p.1 = k := by
    simpa [keys, List.mem_map] using hk
  have hp := List.find?_eq_none.mp h _ hm
  simpa using hp

theorem nodup_keys_insOpt (d : Doc) (k : String) (norm : String → String)
    (o : Option String) (hnd : (keys d).Nodup) :
    (keys (insOpt d k norm o)).Nodup := by
  cases o with
  | none => exact hnd
  | some ts => exact nodup_keys_insertDoc d k _ hnd

theorem mem_keys_insOpt (d : Doc) (k k' : String) (norm : String → String)
    (o : Option String) (h : k' ∈ keys (insOpt d k norm o)) :
    k' = k ∨ k' ∈ keys d := by
  cases o with
  | none => exact Or.inr h
  | some ts => exact (mem_keys_insertDoc d k k' _).mp h

/-- Inversion of a successful `transform`: the date was present as a string,
the title was present as a string, the slug was either given as a string or
derived from the title, and `transformRest` succeeded. -/
theorem transform_ok_inv (norm : String → String) (fm : Doc) (gd : String)
    (gu : Option String) (ws : List String) (doc : Doc) (op : String)
    (h : transform norm fm gd gu = (ws, .ok (doc, op))) :
    ∃ ds fm1 title slug fm2,
      shiftRemove fm "date" = (some (Value.str ds), fm1) ∧
      lookup fm1 "title" = some (Value.str title) ∧
      (shiftRemove fm1 "slug" = (some (Value.str slug), fm2) ∨
        (shiftRemove fm1 "slug" = (none, fm2) ∧ slug = kebabCase title)) ∧
      transformRest norm (warnsOf gd ds) ds (dateOptOf gd ds) (updOptOf gd ds gu)
        slug fm2 = (ws, .ok (doc, op)) := by
  unfold transform at h
  cases hsd : shiftRemove fm "date" with
  | mk vo fm1 =>
    rw [hsd] at h
    cases vo with
    | none => simp at h
    | some v =>
      cases v with
      | str ds =>
        dsimp only at h
        cases hti : lookup fm1 "title" with
        | none => rw [hti] at h; simp at h
        | some tv =>
          rw [hti] at h
          cases tv with
          | str title =>
            dsimp only at h
            cases hsl : shiftRemove fm1 "slug" with
            | mk so fm2 =>
              rw [hsl] at h
              cases so with
              | none =>
                exact ⟨ds, fm1, title, kebabCase title, fm2, rfl, hti,
                  Or.inr ⟨hsl, rfl⟩, h⟩
              | some sv =>
                cases sv with
                | str s =>
                  exact ⟨ds, fm1, title, s, fm2, rfl, hti, Or.inl hsl, h⟩
                | int n => simp at h
                | boolean b => simp at h
                | arr xs => simp at h
                | table kvs => simp at h
          | int n => simp at h
          | boolean b => simp at h
          | arr xs => simp at h
          | table kvs => simp at h
      | int n => simp at h
      | boolean b => simp at h
      | arr xs => simp at h
      | table kvs => simp at h

/-! ## Claims -/

/-- C2, counterexample: the code does not validate the digit positions of the
declared date.  The date `"abcd-ef-gh"` (letters in every digit position)
passes all four shape assertions and the transformation succeeds, producing a
full output document and output path — contradicting the claim that any
deviation from `YYYY-MM-DD` (4 digits, `-`, 2 digits, `-`, 2 digits) fails
with no output. -/
theorem claim_C2_counterexample :
    transform (fun s => s)
        [("date", Value.str "abcd-ef-gh"), ("title", Value.str "t")]
        "abcd-ef-ghZ" none
      = ([], .ok ([("title", Value.str "t"), ("date", Value.str "abcd-ef-ghZ"),
          ("path", Value.str "/blog/abcd/ef/gh/t")], "abcd/ef/abcd-ef-gh-t.md")) := by
  rfl

/-- C2, amended: the `date` value must be an ASCII string of length 10 with a
hyphen at byte offsets 4 and 7; any deviation from *that* shape makes the
transformation fail (with an assertion panic), so no output is produced.  The
digit positions themselves are not validated. -/
theorem claim_C2_amended_date_shape (norm : String → String) (fm : Doc)
    (gd : String) (gu : Option String) (ds : String) (fm1 : Doc)
    (hdate : shiftRemove fm "date" = (some (Value.str ds), fm1))
    (hbad : ¬(strIsAscii ds = true ∧ ds.length = 10 ∧
      ds.data.get? 4 = some '-' ∧ ds.data.get? 7 = some '-')) :
    isOkE (transform norm fm gd gu).2 = false := by
  cases hres : transform norm fm gd gu with
  | mk ws r =>
    cases r with
    | error e => rfl
    | ok pr =>
      exfalso
      obtain ⟨doc, op⟩ := pr
      obtain ⟨ds', fm1', title, slug, fm2, hdate', htitle, hsl, htr⟩ :=
        transform_ok_inv norm fm gd gu ws doc op hres
      rw [hdate] at hdate'
      obtain ⟨hds, -⟩ : Value.str ds = Value.str ds' ∧ fm1 = fm1' := by
        have h1 := congrArg Prod.fst hdate'
        have h2 := congrArg Prod.snd hdate'
        simp only at h1 h2
        exact ⟨Option.some.injEq .. ▸ h1, h2⟩
      obtain rfl : ds = ds' := Value.str.injEq .. ▸ hds
      obtain ⟨-, -, h1, h2, h3, h4, -⟩ :=
        transformRest_ok norm _ ds _ _ slug fm2 ws doc op htr
      exact hbad ⟨h1, h2, h3, h4⟩

/-- C2, witness: a date of the wrong length (`"2024-3-7"`) makes the run
fail. -/
theorem claim_C2_witness :
    isOkE (transform (fun s => s)
        [("date", Value.str "2024-3-7"), ("title", Value.str "t")]
        "2024-3-7T00" none).2 = false :=
  claim_C2_amended_date_shape (fun s => s)
    [("date", Value.str "2024-3-7"), ("title", Value.str "t")]
    "2024-3-7T00" none "2024-3-7" [("title", Value.str "t")] rfl (by decide)

/-- C3: the assertion `input_path.ends_with(".mdx")` uses `Path::ends_with`,
which compares whole path components.  For every invocation whose input
path's final component is not the literal `.mdx` the run aborts immediately
with the assertion failure, with an empty effect trace, independent of the
git log and the file contents (so before any input is read or transformed).
An ordinary path such as `posts/foo.mdx` fails the assertion; only a file
literally named `.mdx` (in any directory) passes it. -/
theorem claim_C3_mdx_assert :
    (∀ (p : String) (norm : String → String) (tomlSer : Doc → String)
        (parse : String → Option Doc) (gitLog : List String) (fileText : String),
      pathEndsWithMdx p = false →
      runMain norm tomlSer parse [p] gitLog fileText
        = ([], .error (.assertFail "input_path.ends_with(.mdx)"))) ∧
    pathEndsWithMdx "posts/foo.mdx" = false ∧
    pathEndsWithMdx ".mdx" = true ∧
    pathEndsWithMdx "posts/.mdx" = true := by
  refine ⟨fun p norm tomlSer parse gitLog fileText h => ?_, by decide, by decide, by decide⟩
  unfold runMain
  dsimp only
  rw [h]
  rfl

/-- C3, witness: the ordinary path `posts/foo.mdx` hits the assertion. -/
theorem claim_C3_witness :
    runMain (fun s => s) (fun _ => "") (fun _ => none) ["posts/foo.mdx"] [] ""
      = ([], .error (.assertFail "input_path.ends_with(.mdx)")) :=
  claim_C3_mdx_assert.1 "posts/foo.mdx" (fun s => s) (fun _ => "") (fun _ => none)
    [] "" (by decide)

/-- C4, counterexample: the unexpected-field check is *not* the first
transformation step.  A document whose only field is the unrecognized `junk`
fails with the missing-`date` panic, not with an error naming `junk` — so
"fails with an error naming that field, regardless of the rest of the
document" and "field validation is the first step, before date
reconciliation or slug handling" are both false. -/
theorem claim_C4_counterexample :
    transform (fun s => s) [("junk", Value.int 1)] "d" none
        = ([], .error (.expectFail "all pages have a date")) ∧
      Err.expectFail "all pages have a date"
        ≠ Err.bailed "Unexpected frontmatter field `junk`" :=
  ⟨rfl, by decide⟩

/-- C4, amended: once date extraction, the title lookup and slug extraction
have succeeded, any remaining key outside `{categories, author, title}` makes
the transformation fail with an error naming the first such key (before the
date-shape assertions and before anything is inserted). -/
theorem claim_C4_amended_unexpected_field (norm : String → String) (fm : Doc)
    (gd : String) (gu : Option String) (ds : String) (fm1 : Doc)
    (title : String) (sv : Option Value) (fm2 : Doc) (p : String × Value)
    (hdate : shiftRemove fm "date" = (some (Value.str ds), fm1))
    (htitle : lookup fm1 "title" = some (Value.str title))
    (hslug : shiftRemove fm1 "slug" = (sv, fm2))
    (hsv : sv = none ∨ ∃ s, sv = some (Value.str s))
    (hfind : fm2.find? (fun q => ! recognizedB q.1) = some p) :
    (transform norm fm gd gu).2
      = .error (.bailed ("Unexpected frontmatter field `" ++ p.1 ++ "`")) := by
  rw [transform_eq_rest norm fm gd gu ds fm1 title hdate htitle]
  rcases hsv with rfl | ⟨sl, rfl⟩ <;>
    · rw [hslug]
      dsimp only
      unfold transformRest
      rw [hfind]

/-- C4, witness: with a valid date and title present, the unrecognized field
`junk` is reported by name. -/
theorem claim_C4_witness :
    (transform (fun s => s)
        [("date", Value.str "2024-01-05"), ("title", Value.str "T"),
          ("junk", Value.int 1)] "2024-01-05" none).2
      = .error (.bailed "Unexpected frontmatter field `junk`") :=
  claim_C4_amended_unexpected_field (fun s => s)
    [("date", Value.str "2024-01-05"), ("title", Value.str "T"), ("junk", Value.int 1)]
    "2024-01-05" none "2024-01-05"
    [("title", Value.str "T"), ("junk", Value.int 1)] "T" none
    [("title", Value.str "T"), ("junk", Value.int 1)] ("junk", Value.int 1)
    rfl rfl rfl (Or.inl rfl) rfl

/-- C7, counterexample: no distinctness check exists anywhere.  With two
identical history lines, `git_timestamps` returns `updated` equal to
`created`, and the run inserts an `updated` field equal to `date` — so
"`updated` is present only when that record differs from the created
timestamp" and "inserted only when distinct from created" are both false. -/
theorem claim_C7_counterexample :
    git_timestamps ["2024-01-01T00:00:00+00:00", "2024-01-01T00:00:00+00:00"]
        = .ok ("2024-01-01T00:00:00+00:00", some "2024-01-01T00:00:00+00:00") ∧
      transform (fun s => s) [("date", Value.str "2024-01-01"), ("title", Value.str "t")]
          "2024-01-01T00:00:00+00:00" (some "2024-01-01T00:00:00+00:00")
        = ([], .ok ([("title", Value.str "t"),
            ("date", Value.str "2024-01-01T00:00:00+00:00"),
            ("updated", Value.str "2024-01-01T00:00:00+00:00"),
            ("path", Value.str "/blog/2024/01/01/t")],
            "2024/01/2024-01-01-t.md")) :=
  ⟨rfl, rfl⟩

/-- C8, counterexample: the body is not passed through byte-for-byte.
`BufRead::lines` strips `\r\n` line endings, so a CRLF body line is
rewritten to LF in the joined body. -/
theorem claim_C8_counterexample :
    read_file_contents "---\n---\nfoo\r\nbar" = .ok ("", "foo\nbar") ∧
      "foo\nbar" ≠ "foo\r\nbar" :=
  ⟨rfl, by decide⟩

/-- C10, counterexample: a document lacking both `title` and `date` aborts at
the `date` lookup, not at the `title` lookup — so "for every document whose
frontmatter lacks a `title` key, the program aborts with a panic when looking
it up" is not literally universal. -/
theorem claim_C10_counterexample :
    transform (fun s => s) [] "d" none
        = ([], .error (.expectFail "all pages have a date")) ∧
      Err.expectFail "all pages have a date"
        ≠ Err.expectFail "IndexMap: key not found" :=
  ⟨rfl, by decide⟩

/-- C10, amended: provided the `date` field is present as a string, a
document whose frontmatter lacks a `title` key aborts with the title-lookup
panic — even when an explicit `slug` is supplied, and before the
unexpected-field check is reached (the error is the lookup panic no matter
what other keys are present). -/
theorem claim_C10_amended_title_required (norm : String → String) (fm : Doc)
    (gd : String) (gu : Option String) (ds : String) (fm1 : Doc)
    (hdate : shiftRemove fm "date" = (some (Value.str ds), fm1))
    (htitle : lookup fm1 "title" = none) :
    (transform norm fm gd gu).2 = .error (.expectFail "IndexMap: key not found") := by
  unfold transform
  rw [hdate]
  dsimp only
  rw [htitle]

/-- C10, witness: a document with a date, an explicit slug and an unknown
field but no title dies at the title lookup (not at the unexpected-field
check). -/
theorem claim_C10_witness :
    (transform (fun s => s)
        [("date", Value.str "2024-01-01"), ("slug", Value.str "s"),
          ("junk", Value.int 1)] "2024-01-01" none).2
      = .error (.expectFail "IndexMap: key not found") :=
  claim_C10_amended_title_required (fun s => s)
    [("date", Value.str "2024-01-01"), ("slug", Value.str "s"), ("junk", Value.int 1)]
    "2024-01-01" none "2024-01-01"
    [("slug", Value.str "s"), ("junk", Value.int 1)] rfl rfl

/-- C5: taxonomy restructuring.  For a generic source/target pair (as
instantiated by `main` with `author`→`author` and `categories`→`category`),
over a document with unique keys whose `taxonomies` entry is absent or a
table: an absent source field leaves the document unchanged; a string value
`s` is removed from the top level and becomes `taxonomies[target] = [s]`
(inserted into the current taxonomies table); an array value is removed and
passes through unchanged in order; any other value type is a validation
failure.  For the composed flow of `main`: when both `author` and
`categories` are present (each a string or an array) the second conversion
merges into the table created by the first, yielding both targets; when
neither is present the composition returns the document unchanged, so no
`taxonomies` field is created. -/
theorem claim_C5_taxonomy (d : Doc) (old nw : String)
    (hnd : (keys d).Nodup) (hot : old ≠ "taxonomies")
    (htax : lookup d "taxonomies" = none ∨
      ∃ tbl0, lookup d "taxonomies" = some (Value.table tbl0)) :
    (lookup d old = none → convert_taxonomy d old nw = .ok d) ∧
    (∀ s, lookup d old = some (Value.str s) →
      isOkD (convert_taxonomy d old nw) = true ∧
      resLookup (convert_taxonomy d old nw) old = none ∧
      resLookup (convert_taxonomy d old nw) "taxonomies"
        = some (Value.table (insertDoc (tblOf d) nw (Value.arr [Value.str s])))) ∧
    (∀ xs, lookup d old = some (Value.arr xs) →
      isOkD (convert_taxonomy d old nw) = true ∧
      resLookup (convert_taxonomy d old nw) old = none ∧
      resLookup (convert_taxonomy d old nw) "taxonomies"
        = some (Value.table (insertDoc (tblOf d) nw (Value.arr xs)))) ∧
    (∀ v, lookup d old = some v → (∀ s, v ≠ Value.str s) → (∀ xs, v ≠ Value.arr xs) →
      isOkD (convert_taxonomy d old nw) = false) ∧
    (∀ va vc, lookup d "author" = some va → lookup d "categories" = some vc →
      ((∃ a, va = Value.str a) ∨ (∃ ys, va = Value.arr ys)) →
      ((∃ c, vc = Value.str c) ∨ (∃ zs, vc = Value.arr zs)) →
      lookup d "taxonomies" = none →
      isOkD (convertBoth d) = true ∧
      resLookup (convertBoth d) "author" = none ∧
      resLookup (convertBoth d) "categories" = none ∧
      resLookup (convertBoth d) "taxonomies"
        = some (Value.table [("author", taxonomyArray va),
            ("category", taxonomyArray vc)])) ∧
    (lookup d "author" = none → lookup d "categories" = none →
      convertBoth d = .ok d) := by
  refine ⟨?_, ?_, ?_, ?_, ?_, ?_⟩
  · intro h
    exact convert_taxonomy_of_absent d old nw h
  · intro s h
    rcases htax with htn | ⟨tbl0, hts⟩
    · have ht : tblOf d = [] := by
        unfold tblOf
        rw [htn]
      rw [convert_taxonomy_str d old nw s htn h, ht]
      refine ⟨rfl, ?_, ?_⟩
      · show lookup _ old = none
        rw [lookup_eq_none_iff]
        intro hm
        rcases (mem_keys_insertDoc _ "taxonomies" old _).mp hm with h1 | h1
        · exact hot h1
        · rcases (mem_keys_insertDoc _ "taxonomies" old _).mp h1 with h2 | h2
          · exact hot h2
          · exact not_mem_keys_swapRemove_self d old hnd h2
      · show lookup _ "taxonomies" = _
        rw [lookup_insertDoc_self]
        rfl
    · have ht : tblOf d = tbl0 := by
        unfold tblOf
        rw [hts]
      rw [convert_taxonomy_str_present d old nw s tbl0 hnd hot hts h, ht]
      refine ⟨rfl, ?_, ?_⟩
      · show lookup _ old = none
        rw [lookup_eq_none_iff]
        intro hm
        rcases (mem_keys_insertDoc _ "taxonomies" old _).mp hm with h1 | h1
        · exact hot h1
        · exact not_mem_keys_swapRemove_self d old hnd h1
      · show lookup _ "taxonomies" = _
        rw [lookup_insertDoc_self]
  · intro xs h
    rcases htax with htn | ⟨tbl0, hts⟩
    · have ht : tblOf d = [] := by
        unfold tblOf
        rw [htn]
      rw [convert_taxonomy_arr d old nw xs htn h, ht]
      refine ⟨rfl, ?_, ?_⟩
      · show lookup _ old = none
        rw [lookup_eq_none_iff]
        intro hm
        rcases (mem_keys_insertDoc _ "taxonomies" old _).mp hm with h1 | h1
        · exact hot h1
        · rcases (mem_keys_insertDoc _ "taxonomies" old _).mp h1 with h2 | h2
          · exact hot h2
          · exact not_mem_keys_swapRemove_self d old hnd h2
      · show lookup _ "taxonomies" = _
        rw [lookup_insertDoc_self]
        rfl
    · have ht : tblOf d = tbl0 := by
        unfold tblOf
        rw [hts]
      rw [convert_taxonomy_arr_present d old nw xs tbl0 hnd hot hts h, ht]
      refine ⟨rfl, ?_, ?_⟩
      · show lookup _ old = none
        rw [lookup_eq_none_iff]
        intro hm
        rcases (mem_keys_insertDoc _ "taxonomies" old _).mp hm with h1 | h1
        · exact hot h1
        · exact not_mem_keys_swapRemove_self d old hnd h1
      · show lookup _ "taxonomies" = _
        rw [lookup_insertDoc_self]
  · intro v h hs ha
    rcases htax with htn | ⟨tbl0, hts⟩
    · rw [convert_taxonomy_badval d old nw v htn h hs ha]
      rfl
    · rw [convert_taxonomy_badval_present d old nw v tbl0 hnd hot hts h hs ha]
      rfl
  · intro va vc hva hvc hok_a hok_c htn
    have hnd1 : (keys (swapRemove d "author").2).Nodup :=
      nodup_keys_swapRemove d "author" hnd
    have hA : convert_taxonomy d "author" "author"
        = .ok (insertDoc (insertDoc (swapRemove d "author").2 "taxonomies"
            (Value.table [])) "taxonomies"
            (Value.table [("author", taxonomyArray va)])) := by
      rcases hok_a with ⟨a, rfl⟩ | ⟨ys, rfl⟩
      · exact convert_taxonomy_str d "author" "author" a htn hva
      · exact convert_taxonomy_arr d "author" "author" ys htn hva
    rw [insertDoc_insertDoc_same] at hA
    set d1 := (swapRemove d "author").2 with hd1
    set D2 := insertDoc d1 "taxonomies" (Value.table [("author", taxonomyArray va)])
      with hD2
    have hndD2 : (keys D2).Nodup := nodup_keys_insertDoc _ _ _ hnd1
    have hlkc : lookup D2 "categories" = some vc := by
      rw [hD2, lookup_insertDoc_ne _ _ _ _ (by decide), hd1,
        lookup_swapRemove_ne d "author" "categories" hnd (by decide)]
      exact hvc
    have hlkt : lookup D2 "taxonomies"
        = some (Value.table [("author", taxonomyArray va)]) := by
      rw [hD2, lookup_insertDoc_self]
    have hAnotin : "author" ∉ keys D2 := by
      intro hm
      rw [hD2] at hm
      rcases (mem_keys_insertDoc _ _ _ _).mp hm with h1 | h1
      · exact absurd h1 (by decide)
      · exact not_mem_keys_swapRemove_self d "author" hnd (hd1 ▸ h1)
    have hB : convert_taxonomy D2 "categories" "category"
        = .ok (insertDoc (swapRemove D2 "categories").2 "taxonomies"
            (Value.table [("author", taxonomyArray va),
              ("category", taxonomyArray vc)])) := by
      rcases hok_c with ⟨c, rfl⟩ | ⟨zs, rfl⟩
      · exact convert_taxonomy_str_present D2 "categories" "category" c _
          hndD2 (by decide) hlkt hlkc
      · exact convert_taxonomy_arr_present D2 "categories" "category" zs _
          hndD2 (by decide) hlkt hlkc
    have hcb : convertBoth d
        = .ok (insertDoc (swapRemove D2 "categories").2 "taxonomies"
            (Value.table [("author", taxonomyArray va),
              ("category", taxonomyArray vc)])) := by
      unfold convertBoth
      rw [hA]
      exact hB
    refine ⟨?_, ?_, ?_, ?_⟩
    · rw [hcb]
      rfl
    · show resLookup _ "author" = none
      rw [hcb]
      show lookup _ "author" = none
      rw [lookup_eq_none_iff]
      intro hm
      rcases (mem_keys_insertDoc _ _ _ _).mp hm with h1 | h1
      · exact absurd h1 (by decide)
      · exact hAnotin (mem_keys_swapRemove D2 "categories" "author" h1)
    · show resLookup _ "categories" = none
      rw [hcb]
      show lookup _ "categories" = none
      rw [lookup_eq_none_iff]
      intro hm
      rcases (mem_keys_insertDoc _ _ _ _).mp hm with h1 | h1
      · exact absurd h1 (by decide)
      · exact not_mem_keys_swapRemove_self D2 "categories" hndD2 h1
    · show resLookup _ "taxonomies" = _
      rw [hcb]
      show lookup _ "taxonomies" = _
      rw [lookup_insertDoc_self]
  · intro hauth hcat
    unfold convertBoth
    rw [convert_taxonomy_of_absent d "author" "author" hauth]
    exact convert_taxonomy_of_absent d "categories" "category" hcat

/-- C5, witness: with both `author: "me"` and `categories: "foo"` present,
the composed conversions remove both source fields and merge both targets
into one `taxonomies` table, `categories: "foo"` yielding
`taxonomies.category = ["foo"]`. -/
theorem claim_C5_witness :
    isOkD (convertBoth [("author", Value.str "me"), ("categories", Value.str "foo")])
        = true ∧
      resLookup (convertBoth [("author", Value.str "me"), ("categories", Value.str "foo")])
        "author" = none ∧
      resLookup (convertBoth [("author", Value.str "me"), ("categories", Value.str "foo")])
        "categories" = none ∧
      resLookup (convertBoth [("author", Value.str "me"), ("categories", Value.str "foo")])
        "taxonomies"
        = some (Value.table [("author", taxonomyArray (Value.str "me")),
            ("category", taxonomyArray (Value.str "foo"))]) :=
  (claim_C5_taxonomy [("author", Value.str "me"), ("categories", Value.str "foo")]
    "categories" "category" (by decide) (by decide) (Or.inl rfl)).2.2.2.2.1
    (Value.str "me") (Value.str "foo") rfl rfl
    (Or.inl ⟨"me", rfl⟩) (Or.inl ⟨"foo", rfl⟩) rfl

/-- C9: atomicity on failure.  Whenever a run ends in any error, the effect
trace contains only stderr diagnostics: no directory is created and no output
file is written. -/
theorem claim_C9_atomic_failure (norm : String → String) (tomlSer : Doc → String)
    (parse : String → Option Doc) (args : List String) (gitLog : List String)
    (fileText : String) (e : Err)
    (h : (runMain norm tomlSer parse args gitLog fileText).2 = .error e) :
    (runMain norm tomlSer parse args gitLog fileText).1.all effIsWarn = true := by
  unfold runMain at h ⊢
  match args with
  | [] => rfl
  | a :: b :: t => rfl
  | [input] =>
    dsimp only at h ⊢
    cases hp : pathEndsWithMdx input with
    | false => rfl
    | true =>
      rw [hp] at h
      unfold runAfterAssert at h ⊢
      cases gitLog with
      | nil => rfl
      | cons gitDate rest =>
        show (runAfterGit norm tomlSer parse gitDate rest.getLast? fileText).1.all
          effIsWarn = true
        replace h : (runAfterGit norm tomlSer parse gitDate rest.getLast? fileText).2
            = .error e := h
        unfold runAfterGit at h ⊢
        cases hrc : read_file_contents fileText with
        | error e2 => rfl
        | ok pr =>
          obtain ⟨yamlFrontmatter, markdown⟩ := pr
          rw [hrc] at h
          show (runAfterRead norm tomlSer parse gitDate rest.getLast?
            yamlFrontmatter markdown).1.all effIsWarn = true
          replace h : (runAfterRead norm tomlSer parse gitDate rest.getLast?
              yamlFrontmatter markdown).2 = .error e := h
          unfold runAfterRead at h ⊢
          cases hpar : parse yamlFrontmatter with
          | none => rfl
          | some fm =>
            rw [hpar] at h
            show (runAfterParse norm tomlSer gitDate rest.getLast? markdown fm).1.all
              effIsWarn = true
            replace h : (runAfterParse norm tomlSer gitDate rest.getLast? markdown fm).2
                = .error e := h
            unfold runAfterParse at h ⊢
            cases htr : transform norm fm gitDate rest.getLast? with
            | mk ws r =>
              rw [htr] at h
              cases r with
              | error e2 =>
                show (List.map Effect.warn ws).all effIsWarn = true
                simp only [List.all_eq_true, List.mem_map]
                rintro x ⟨m, -, rfl⟩
                rfl
              | ok pr2 =>
                obtain ⟨fmFinal, outPath⟩ := pr2
                exact absurd h (by simp)

/-- C9, witness: a run that fails on an unexpected frontmatter field has a
warning-only (here: empty) effect trace. -/
theorem claim_C9_witness :
    ((runMain (fun s => s) (fun _ => "") (fun _ => some [("junk", Value.int 1)])
        [".mdx"] ["2024-01-01"] "---\n---\nbody").1.all effIsWarn) = true :=
  claim_C9_atomic_failure (fun s => s) (fun _ => "")
    (fun _ => some [("junk", Value.int 1)]) [".mdx"] ["2024-01-01"]
    "---\n---\nbody" (.expectFail "all pages have a date") (by rfl)

/-- Shared step for C1: under a failed prefix match, a successful
`transformRest` yields exactly the mismatch warning, no `date` or `updated`
field, and a `path` derived from the declared date and the given slug. -/
theorem mismatch_after_rest (norm : String → String) (gd ds : String)
    (gu : Option String) (sl : String) (fm2 : Doc) (ws : List String)
    (doc : Doc) (op : String)
    (hnd2 : (keys fm2).Nodup)
    (hmis : startsWithB gd ds = false)
    (htr : transformRest norm (warnsOf gd ds) ds (dateOptOf gd ds)
        (updOptOf gd ds gu) sl fm2 = (ws, .ok (doc, op))) :
    ws = [mismatchWarning gd ds] ∧
      lookup doc "date" = none ∧
      lookup doc "updated" = none ∧
      lookup doc "path" = some (Value.str (pathOf ds sl)) := by
  obtain ⟨hws, hfind, -, -, -, -, fm6, hca, hcc, -⟩ :=
    transformRest_ok norm _ ds _ _ sl fm2 ws doc op htr
  have hwOf : warnsOf gd ds = [mismatchWarning gd ds] := by
    unfold warnsOf
    rw [hmis]
    rfl
  have hdOf : dateOptOf gd ds = none := by
    unfold dateOptOf
    rw [hmis]
    rfl
  have huOf : updOptOf gd ds gu = none := by
    unfold updOptOf
    rw [hmis]
    rfl
  rw [hdOf, huOf] at hca
  simp only [insOpt] at hca
  have hrec := find?_none_recognized fm2 hfind
  have hdnm : "date" ∉ keys fm2 := by
    intro hm
    have hx := hrec _ hm
    simp [recognizedB] at hx
  have hunm : "updated" ∉ keys fm2 := by
    intro hm
    have hx := hrec _ hm
    simp [recognizedB] at hx
  have hdnm5 : "date" ∉ keys (insertDoc fm2 "path" (Value.str (pathOf ds sl))) := by
    intro hm
    rcases (mem_keys_insertDoc fm2 "path" "date" _).mp hm with h1 | h1
    · exact absurd h1 (by decide)
    · exact hdnm h1
  have hunm5 : "updated" ∉ keys (insertDoc fm2 "path" (Value.str (pathOf ds sl))) := by
    intro hm
    rcases (mem_keys_insertDoc fm2 "path" "updated" _).mp hm with h1 | h1
    · exact absurd h1 (by decide)
    · exact hunm h1
  have hdnm6 : "date" ∉ keys fm6 :=
    convert_taxonomy_not_mem _ _ _ _ _ hca (by decide) hdnm5
  have hunm6 : "updated" ∉ keys fm6 :=
    convert_taxonomy_not_mem _ _ _ _ _ hca (by decide) hunm5
  have hdnmD : "date" ∉ keys doc :=
    convert_taxonomy_not_mem _ _ _ _ _ hcc (by decide) hdnm6
  have hunmD : "updated" ∉ keys doc :=
    convert_taxonomy_not_mem _ _ _ _ _ hcc (by decide) hunm6
  have hnd5 : (keys (insertDoc fm2 "path" (Value.str (pathOf ds sl)))).Nodup :=
    nodup_keys_insertDoc fm2 "path" _ hnd2
  have hnd6 : (keys fm6).Nodup := convert_taxonomy_nodup _ _ _ _ hnd5 hca
  have hpathD : lookup doc "path" = some (Value.str (pathOf ds sl)) := by
    rw [convert_taxonomy_lookup_ne fm6 doc "categories" "category" "path" hnd6
        (by decide) (by decide) hcc,
      convert_taxonomy_lookup_ne _ fm6 "author" "author" "path" hnd5
        (by decide) (by decide) hca,
      lookup_insertDoc_self]
  exact ⟨hwOf ▸ hws, (lookup_eq_none_iff doc "date").mpr hdnmD,
    (lookup_eq_none_iff doc "updated").mpr hunmD, hpathD⟩

/-- C1: date reconciliation uses a prefix match
(`git_date.starts_with(frontmatter_date)`).  For every input whose prefix
match fails: whether the slug is given explicitly as a string or derived by
kebab-casing the title, a completing run emits exactly the mismatch
diagnostic, drops both authoritative timestamps — the output document
contains neither a `date` nor an `updated` field — and still derives the
`path` field from the declared frontmatter date; and a run stopped by a
non-string slug has still emitted the diagnostic. -/
theorem claim_C1_date_mismatch_policy (norm : String → String) (fm : Doc)
    (gd : String) (gu : Option String) (ds : String) (fm1 : Doc) (title : String)
    (hnd : (keys fm).Nodup)
    (hdate : shiftRemove fm "date" = (some (Value.str ds), fm1))
    (hmis : startsWithB gd ds = false)
    (htitle : lookup fm1 "title" = some (Value.str title)) :
    (∀ sl fm2 ws doc op, shiftRemove fm1 "slug" = (some (Value.str sl), fm2) →
      transform norm fm gd gu = (ws, .ok (doc, op)) →
      ws = [mismatchWarning gd ds] ∧
        lookup doc "date" = none ∧
        lookup doc "updated" = none ∧
        lookup doc "path" = some (Value.str (pathOf ds sl))) ∧
    (∀ fm2 ws doc op, shiftRemove fm1 "slug" = (none, fm2) →
      transform norm fm gd gu = (ws, .ok (doc, op)) →
      ws = [mismatchWarning gd ds] ∧
        lookup doc "date" = none ∧
        lookup doc "updated" = none ∧
        lookup doc "path" = some (Value.str (pathOf ds (kebabCase title)))) ∧
    (∀ sv fm2, shiftRemove fm1 "slug" = (some sv, fm2) →
      (∀ s, sv ≠ Value.str s) →
      transform norm fm gd gu
        = ([mismatchWarning gd ds], .error (.bailed "slug must be a string"))) := by
  have hnd1 : (keys fm1).Nodup := by
    have hx := nodup_keys_shiftRemove fm "date" hnd
    rw [hdate] at hx
    exact hx
  have hwOf : warnsOf gd ds = [mismatchWarning gd ds] := by
    unfold warnsOf
    rw [hmis]
    rfl
  refine ⟨?_, ?_, ?_⟩
  · intro sl fm2 ws doc op hslug htr
    rw [transform_eq_rest norm fm gd gu ds fm1 title hdate htitle, hslug] at htr
    replace htr : transformRest norm (warnsOf gd ds) ds (dateOptOf gd ds)
        (updOptOf gd ds gu) sl fm2 = (ws, .ok (doc, op)) := htr
    have hnd2 : (keys fm2).Nodup := by
      have hx := nodup_keys_shiftRemove fm1 "slug" hnd1
      rw [hslug] at hx
      exact hx
    exact mismatch_after_rest norm gd ds gu sl fm2 ws doc op hnd2 hmis htr
  · intro fm2 ws doc op hslug htr
    rw [transform_eq_rest norm fm gd gu ds fm1 title hdate htitle, hslug] at htr
    replace htr : transformRest norm (warnsOf gd ds) ds (dateOptOf gd ds)
        (updOptOf gd ds gu) (kebabCase title) fm2 = (ws, .ok (doc, op)) := htr
    have hnd2 : (keys fm2).Nodup := by
      have hx := nodup_keys_shiftRemove fm1 "slug" hnd1
      rw [hslug] at hx
      exact hx
    exact mismatch_after_rest norm gd ds gu (kebabCase title) fm2 ws doc op hnd2 hmis htr
  · intro sv fm2 hslug hsv
    rw [transform_eq_rest norm fm gd gu ds fm1 title hdate htitle, hslug]
    cases sv with
    | str s => exact absurd rfl (hsv s)
    | int n => rw [hwOf]
    | boolean b => rw [hwOf]
    | arr xs => rw [hwOf]
    | table kvs => rw [hwOf]

/-- C1, witness: declared date `2024-01-06` against git date
`2024-01-05T...`, with no `slug` field (the kebab-derived default): the run
succeeds with a mismatch warning, no `date` or `updated` field, and a `path`
built from the declared date and the kebab-cased title. -/
theorem claim_C1_witness :
    [mismatchWarning "2024-01-05T00:00:00+00:00" "2024-01-06"]
        = [mismatchWarning "2024-01-05T00:00:00+00:00" "2024-01-06"] ∧
      lookup [("title", Value.str "Hello, World!"),
          ("path", Value.str "/blog/2024/01/06/hello-world")] "date" = none ∧
      lookup [("title", Value.str "Hello, World!"),
          ("path", Value.str "/blog/2024/01/06/hello-world")] "updated" = none ∧
      lookup [("title", Value.str "Hello, World!"),
          ("path", Value.str "/blog/2024/01/06/hello-world")] "path"
        = some (Value.str (pathOf "2024-01-06" (kebabCase "Hello, World!"))) :=
  (claim_C1_date_mismatch_policy (fun s => s)
    [("date", Value.str "2024-01-06"), ("title", Value.str "Hello, World!")]
    "2024-01-05T00:00:00+00:00" (some "2024-01-04T00:00:00+00:00") "2024-01-06"
    [("title", Value.str "Hello, World!")] "Hello, World!"
    (by decide) rfl (by decide) rfl).2.1
    [("title", Value.str "Hello, World!")]
    [mismatchWarning "2024-01-05T00:00:00+00:00" "2024-01-06"]
    [("title", Value.str "Hello, World!"),
      ("path", Value.str "/blog/2024/01/06/hello-world")]
    "2024/01/2024-01-06-hello-world.md" rfl rfl

/-- Shared step: a successful `transformRest` puts
`path = /blog/{year}/{month}/{day}/{slug}` into the final document and
derives the output file path from the same data. -/
theorem path_after_rest (norm : String → String) (warns : List String)
    (ds : String) (dOpt uOpt : Option String) (sl : String) (fm2 : Doc)
    (ws : List String) (doc : Doc) (op : String)
    (hnd2 : (keys fm2).Nodup)
    (htr : transformRest norm warns ds dOpt uOpt sl fm2 = (ws, .ok (doc, op))) :
    lookup doc "path" = some (Value.str (pathOf ds sl)) ∧ op = outPathOf ds sl := by
  obtain ⟨-, -, -, -, -, -, fm6, hca, hcc, hop⟩ :=
    transformRest_ok norm warns ds dOpt uOpt sl fm2 ws doc op htr
  have hnd4 : (keys (insOpt (insOpt fm2 "date" norm dOpt) "updated" norm uOpt)).Nodup :=
    nodup_keys_insOpt _ _ _ _ (nodup_keys_insOpt _ _ _ _ hnd2)
  have hnd5 : (keys (insertDoc (insOpt (insOpt fm2 "date" norm dOpt) "updated" norm uOpt)
      "path" (Value.str (pathOf ds sl)))).Nodup :=
    nodup_keys_insertDoc _ "path" _ hnd4
  have hnd6 : (keys fm6).Nodup := convert_taxonomy_nodup _ _ _ _ hnd5 hca
  rw [convert_taxonomy_lookup_ne fm6 doc "categories" "category" "path" hnd6
      (by decide) (by decide) hcc,
    convert_taxonomy_lookup_ne _ fm6 "author" "author" "path" hnd5
      (by decide) (by decide) hca,
    lookup_insertDoc_self]
  exact ⟨rfl, hop⟩

/-- C6: slug and path derivation.  When a string `slug` field is present it
is used verbatim; when absent the slug is the kebab-cased `title`; in both
cases the inserted `path` field is `/blog/{year}/{month}/{day}/{slug}` (and
the output file path is `{year}/{month}/{year}-{month}-{day}-{slug}.md`). -/
theorem claim_C6_slug_path (norm : String → String) (fm : Doc) (gd : String)
    (gu : Option String) (ds : String) (fm1 : Doc) (title : String)
    (hnd : (keys fm).Nodup)
    (hdate : shiftRemove fm "date" = (some (Value.str ds), fm1))
    (htitle : lookup fm1 "title" = some (Value.str title)) :
    (∀ sl fm2 ws doc op, shiftRemove fm1 "slug" = (some (Value.str sl), fm2) →
      transform norm fm gd gu = (ws, .ok (doc, op)) →
      lookup doc "path" = some (Value.str (pathOf ds sl)) ∧ op = outPathOf ds sl) ∧
    (∀ fm2 ws doc op, shiftRemove fm1 "slug" = (none, fm2) →
      transform norm fm gd gu = (ws, .ok (doc, op)) →
      lookup doc "path" = some (Value.str (pathOf ds (kebabCase title))) ∧
        op = outPathOf ds (kebabCase title)) := by
  have hnd1 : (keys fm1).Nodup := by
    have hx := nodup_keys_shiftRemove fm "date" hnd
    rw [hdate] at hx
    exact hx
  constructor
  · intro sl fm2 ws doc op hslug htr
    rw [transform_eq_rest norm fm gd gu ds fm1 title hdate htitle, hslug] at htr
    replace htr : transformRest norm (warnsOf gd ds) ds (dateOptOf gd ds)
        (updOptOf gd ds gu) sl fm2 = (ws, .ok (doc, op)) := htr
    have hnd2 : (keys fm2).Nodup := by
      have hx := nodup_keys_shiftRemove fm1 "slug" hnd1
      rw [hslug] at hx
      exact hx
    exact path_after_rest norm _ ds _ _ sl fm2 ws doc op hnd2 htr
  · intro fm2 ws doc op hslug htr
    rw [transform_eq_rest norm fm gd gu ds fm1 title hdate htitle, hslug] at htr
    replace htr : transformRest norm (warnsOf gd ds) ds (dateOptOf gd ds)
        (updOptOf gd ds gu) (kebabCase title) fm2 = (ws, .ok (doc, op)) := htr
    have hnd2 : (keys fm2).Nodup := by
      have hx := nodup_keys_shiftRemove fm1 "slug" hnd1
      rw [hslug] at hx
      exact hx
    exact path_after_rest norm _ ds _ _ (kebabCase title) fm2 ws doc op hnd2 htr

/-- C6, witness: title `"Hello, World!"` with no `slug` and date
`2024-03-07` yields slug `hello-world` and path
`/blog/2024/03/07/hello-world`. -/
theorem claim_C6_witness :
    kebabCase "Hello, World!" = "hello-world" ∧
      lookup [("title", Value.str "Hello, World!"),
          ("date", Value.str "2024-03-07T10:00:00+00:00"),
          ("path", Value.str "/blog/2024/03/07/hello-world")] "path"
        = some (Value.str (pathOf "2024-03-07" (kebabCase "Hello, World!"))) ∧
      "2024/03/2024-03-07-hello-world.md"
        = outPathOf "2024-03-07" (kebabCase "Hello, World!") :=
  ⟨rfl,
    (claim_C6_slug_path (fun s => s)
      [("date", Value.str "2024-03-07"), ("title", Value.str "Hello, World!")]
      "2024-03-07T10:00:00+00:00" none "2024-03-07"
      [("title", Value.str "Hello, World!")] "Hello, World!"
      (by decide) rfl rfl).2
     [("title", Value.str "Hello, World!")] []
     [("title", Value.str "Hello, World!"),
       ("date", Value.str "2024-03-07T10:00:00+00:00"),
       ("path", Value.str "/blog/2024/03/07/hello-world")]
     "2024/03/2024-03-07-hello-world.md" rfl rfl⟩

/-- Shared step for C7: when the updated timestamp reaches `transformRest`
un-suppressed, a successful run has an `updated` field with its normalized
value, whatever the created timestamp did. -/
theorem updated_after_rest (norm : String → String) (warns : List String)
    (ds : String) (dOpt : Option String) (u : String) (sl : String) (fm2 : Doc)
    (ws : List String) (doc : Doc) (op : String)
    (hnd2 : (keys fm2).Nodup)
    (htr : transformRest norm warns ds dOpt (some u) sl fm2 = (ws, .ok (doc, op))) :
    lookup doc "updated" = some (Value.str (norm u)) := by
  obtain ⟨-, -, -, -, -, -, fm6, hca, hcc, -⟩ :=
    transformRest_ok norm warns ds dOpt (some u) sl fm2 ws doc op htr
  simp only [insOpt] at hca
  have hnd3 : (keys (insOpt fm2 "date" norm dOpt)).Nodup :=
    nodup_keys_insOpt _ _ _ _ hnd2
  have hnd4 : (keys (insertDoc (insOpt fm2 "date" norm dOpt) "updated"
      (Value.str (norm u)))).Nodup :=
    nodup_keys_insertDoc _ _ _ hnd3
  have hnd5 : (keys (insertDoc (insertDoc (insOpt fm2 "date" norm dOpt) "updated"
      (Value.str (norm u))) "path" (Value.str (pathOf ds sl)))).Nodup :=
    nodup_keys_insertDoc _ _ _ hnd4
  have hnd6 : (keys fm6).Nodup := convert_taxonomy_nodup _ _ _ _ hnd5 hca
  rw [convert_taxonomy_lookup_ne fm6 doc "categories" "category" "updated" hnd6
      (by decide) (by decide) hcc,
    convert_taxonomy_lookup_ne _ fm6 "author" "author" "updated" hnd5
      (by decide) (by decide) hca,
    lookup_insertDoc_ne _ _ _ _ (by decide),
    lookup_insertDoc_self]

/-- C7, amended: `updated` is present iff the timestamp query returned more
than one line — for any one-line result it is absent, for any result of two
or more lines it is present and equal to the last (oldest) line, with no
comparison against `created` — and whenever it is available (no mismatch
suppressed it) an `updated` field with its normalized value is inserted into
the output document, whether the slug was explicit or kebab-derived, and
whether or not it differs from `created`. -/
theorem claim_C7_amended_updated :
    (∀ (l : List String) (d u : String), git_timestamps l = .ok (d, some u) →
      2 ≤ l.length ∧ l.head? = some d ∧ l.getLast? = some u) ∧
    (∀ d0 : String, git_timestamps [d0] = .ok (d0, none)) ∧
    (∀ (a b : String) (rest : List String),
      git_timestamps (a :: b :: rest) = .ok (a, some ((b :: rest).getLast?.getD b))) ∧
    (∀ (norm : String → String) (fm : Doc) (gd u ds : String) (fm1 : Doc)
        (title : String),
      (keys fm).Nodup →
      shiftRemove fm "date" = (some (Value.str ds), fm1) →
      startsWithB gd ds = true →
      lookup fm1 "title" = some (Value.str title) →
      (∀ sl fm2 ws doc op, shiftRemove fm1 "slug" = (some (Value.str sl), fm2) →
        transform norm fm gd (some u) = (ws, .ok (doc, op)) →
        lookup doc "updated" = some (Value.str (norm u))) ∧
      (∀ fm2 ws doc op, shiftRemove fm1 "slug" = (none, fm2) →
        transform norm fm gd (some u) = (ws, .ok (doc, op)) →
        lookup doc "updated" = some (Value.str (norm u)))) := by
  refine ⟨?_, fun d0 => rfl, ?_, ?_⟩
  · intro l d u h
    cases l with
    | nil => simp [git_timestamps] at h
    | cons d0 rest =>
      unfold git_timestamps at h
      simp only [Except.ok.injEq, Prod.mk.injEq] at h
      obtain ⟨rfl, hu⟩ := h
      obtain ⟨ys, rfl⟩ := List.getLast?_eq_some_iff.mp hu
      refine ⟨by simp, rfl, ?_⟩
      rw [show d0 :: (ys ++ [u]) = (d0 :: ys) ++ [u] from rfl]
      exact List.getLast?_concat _
  · intro a b rest
    obtain ⟨x, hx⟩ : ∃ x, (b :: rest).getLast? = some x := by
      cases hgl : (b :: rest).getLast? with
      | none => exact absurd (List.getLast?_eq_none_iff.mp hgl) (by simp)
      | some x => exact ⟨x, rfl⟩
    show Except.ok (a, (b :: rest).getLast?)
      = Except.ok (a, some ((b :: rest).getLast?.getD b))
    rw [hx]
    rfl
  · intro norm fm gd u ds fm1 title hnd hdate hpre htitle
    have hnd1 : (keys fm1).Nodup := by
      have hx := nodup_keys_shiftRemove fm "date" hnd
      rw [hdate] at hx
      exact hx
    have huOf : updOptOf gd ds (some u) = some u := by
      unfold updOptOf
      rw [hpre]
      rfl
    constructor
    · intro sl fm2 ws doc op hslug htr
      rw [transform_eq_rest norm fm gd (some u) ds fm1 title hdate htitle,
        hslug] at htr
      replace htr : transformRest norm (warnsOf gd ds) ds (dateOptOf gd ds)
          (updOptOf gd ds (some u)) sl fm2 = (ws, .ok (doc, op)) := htr
      rw [huOf] at htr
      have hnd2 : (keys fm2).Nodup := by
        have hx := nodup_keys_shiftRemove fm1 "slug" hnd1
        rw [hslug] at hx
        exact hx
      exact updated_after_rest norm _ ds _ u sl fm2 ws doc op hnd2 htr
    · intro fm2 ws doc op hslug htr
      rw [transform_eq_rest norm fm gd (some u) ds fm1 title hdate htitle,
        hslug] at htr
      replace htr : transformRest norm (warnsOf gd ds) ds (dateOptOf gd ds)
          (updOptOf gd ds (some u)) (kebabCase title) fm2 = (ws, .ok (doc, op)) := htr
      rw [huOf] at htr
      have hnd2 : (keys fm2).Nodup := by
        have hx := nodup_keys_shiftRemove fm1 "slug" hnd1
        rw [hslug] at hx
        exact hx
      exact updated_after_rest norm _ ds _ u (kebabCase title) fm2 ws doc op hnd2 htr

/-- C7, witness: two identical git log lines make `updated` present and
equal to `created`, and the (equal) `updated` field is still inserted into
the output document. -/
theorem claim_C7_witness :
    git_timestamps ["t1", "t1"] = .ok ("t1", some "t1") ∧
      lookup [("title", Value.str "t"),
          ("date", Value.str "2024-01-01T00:00:00+00:00"),
          ("updated", Value.str "2024-01-01T00:00:00+00:00"),
          ("path", Value.str "/blog/2024/01/01/s")] "updated"
        = some (Value.str "2024-01-01T00:00:00+00:00") :=
  ⟨claim_C7_amended_updated.2.2.1 "t1" "t1" [],
    (claim_C7_amended_updated.2.2.2 (fun s => s)
      [("date", Value.str "2024-01-01"), ("title", Value.str "t"),
        ("slug", Value.str "s")]
      "2024-01-01T00:00:00+00:00" "2024-01-01T00:00:00+00:00" "2024-01-01"
      [("title", Value.str "t"), ("slug", Value.str "s")] "t"
      (by decide) rfl (by decide) rfl).1
      "s" [("title", Value.str "t")] []
      [("title", Value.str "t"),
        ("date", Value.str "2024-01-01T00:00:00+00:00"),
        ("updated", Value.str "2024-01-01T00:00:00+00:00"),
        ("path", Value.str "/blog/2024/01/01/s")]
      "2024/01/2024-01-01-s.md" rfl rfl⟩

/-- C8, amended: the body is handled line-wise, not byte-wise.  After the
closing delimiter, the remaining lines are joined with newline separators
verbatim — no trimming and no reflow — so any LF-terminated body whose lines
contain no carriage returns round-trips exactly through the header splitter;
and the serializer emits the joined body unchanged, followed by the single
newline appended by `writeln!`.  (Per the counterexample, CRLF endings are
normalized to LF, so byte-for-byte pass-through holds only line-wise.) -/
theorem claim_C8_amended_body_lines :
    (∀ bls : List String,
      (∀ l ∈ bls, '\n' ∉ l.data) →
      (∀ l ∈ bls, l.data.getLast? ≠ some '\r') →
      bls.getLast? ≠ some "" →
      read_file_contents ("---\n---\n" ++ joinNl bls) = .ok ("", joinNl bls)) ∧
    (∀ (norm : String → String) (tomlSer : Doc → String) (gitDate : String)
        (gitUpdated : Option String) (markdown : String) (fm : Doc)
        (ws : List String) (doc : Doc) (op : String),
      transform norm fm gitDate gitUpdated = (ws, .ok (doc, op)) →
      runAfterParse norm tomlSer gitDate gitUpdated markdown fm
        = (ws.map Effect.warn
             ++ [Effect.mkdirAll (parentDir op),
                 Effect.writeFile op
                   ("+++\n" ++ tomlSer doc ++ "+++\n" ++ markdown ++ "\n")],
           .ok (op, "+++\n" ++ tomlSer doc ++ "+++\n" ++ markdown ++ "\n"))) := by
  constructor
  · intro bls h1 h2 h3
    have hdata : ("---\n---\n" ++ joinNl bls).data
        = ['-', '-', '-'] ++ '\n' :: (['-', '-', '-'] ++ '\n' :: (joinNl bls).data) := by
      rw [String.data_append]
      rfl
    have hlines : rustLines ("---\n---\n" ++ joinNl bls) = "---" :: "---" :: bls := by
      unfold rustLines
      rw [hdata, linesChars_cons_nl _ _ (by decide) (by decide),
        linesChars_cons_nl _ _ (by decide) (by decide)]
      simp only [List.map_cons]
      rw [linesChars_joinNl bls h1 h2 h3]
      rfl
    unfold read_file_contents
    rw [hlines]
    show findFrontmatterEnd ("---" :: bls) "" = .ok ("", joinNl bls)
    unfold findFrontmatterEnd
    rfl
  · intro norm tomlSer gitDate gitUpdated markdown fm ws doc op htr
    unfold runAfterParse
    rw [htr]

/-- C8, witness: an LF body (with an interior empty line) passes through the
header splitter verbatim, and a concrete run writes exactly
`+++\n{toml}+++\n{body}\n`. -/
theorem claim_C8_witness :
    read_file_contents ("---\n---\n" ++ joinNl ["body line 1", "", "line 3"])
        = .ok ("", joinNl ["body line 1", "", "line 3"]) ∧
      runAfterParse (fun s => s) (fun _ => "T = 1\n") "2024-01-05" none "BODY"
          [("date", Value.str "2024-01-05"), ("title", Value.str "t")]
        = ([Effect.mkdirAll (parentDir "2024/01/2024-01-05-t.md"),
            Effect.writeFile "2024/01/2024-01-05-t.md"
              ("+++\nT = 1\n+++\nBODY\n")],
           .ok ("2024/01/2024-01-05-t.md", "+++\nT = 1\n+++\nBODY\n")) :=
  ⟨claim_C8_amended_body_lines.1 ["body line 1", "", "line 3"]
      (by decide) (by decide) (by decide),
    claim_C8_amended_body_lines.2 (fun s => s) (fun _ => "T = 1\n") "2024-01-05"
      none "BODY" [("date", Value.str "2024-01-05"), ("title", Value.str "t")]
      [] [("title", Value.str "t"), ("date", Value.str "2024-01-05"),
        ("path", Value.str "/blog/2024/01/05/t")] "2024/01/2024-01-05-t.md" rfl⟩

end MBM
